import Mathlib

/-!
Verification development for the validation engine of libhxl-python
(`hxl/validation.py`): the edit-distance matcher, the per-rule validation
state machine (`SchemaRule`), schema orchestration (`Schema`), and the
schema parser helpers.

Python functions are embedded as executable Lean definitions.  Machine
integers are modelled as `Nat`/`Int`/`Rat` (Python ints are unbounded, and
the only float arithmetic involved is decimal parsing and comparison,
modelled over `Rat`).  External collaborators that live in this repository
outside the validation module (`hxl.datatypes`, `hxl.model`) are modelled
from the spec and carry a doc comment saying so.
-/

namespace HXLV

/-! ## Edit-distance matcher (`validation.py`, internal helper functions) -/

/-- Loop of `get_common_prefix_len`: Python
`i = 0; for i, (x, y) in enumerate(zip(s1, s2)): if x != y: break; return i`.
`k` is the current value of the loop index `i`; when the loop runs to
completion the last assigned index (`len(zip) - 1`) is returned, and when
`zip` is empty the initial `0` is returned. -/
def gcplLoop : Nat → List (Char × Char) → Nat
  | k, [] => k
  | k, (x, y) :: rest =>
    if x ≠ y then k
    else
      match rest with
      | [] => k
      | _ :: _ => gcplLoop (k + 1) rest

/-- Embedding of `get_common_prefix_len(s1, s2)` (validation.py lines 651-662). -/
def get_common_prefix_len (s1 s2 : String) : Nat :=
  gcplLoop 0 (s1.data.zip s2.data)

/-- The length of the longest common prefix of two strings, following the
words of the spec/claims ("the length of the longest common prefix of s1
and s2, including the case where one string is a prefix of the other").
This is the reference definition the source function is compared against. -/
def spec_common_prefix_len : List Char → List Char → Nat
  | x :: xs, y :: ys => if x = y then spec_common_prefix_len xs ys + 1 else 0
  | _, _ => 0

/-- Inner loop of `get_edit_distance`: Python
`for i1, c1 in enumerate(s1): if c1 == c2: distances_.append(distances[i1])
else: distances_.append(1 + min((distances[i1], distances[i1+1], distances_[-1])))`.
`prev` is the suffix of the previous row starting at index `i1`, and `last`
is `distances_[-1]`, the value appended most recently. -/
def ged_inner (c2 : Char) : List Char → List Nat → Nat → List Nat
  | [], _, _ => []
  | _ :: _, [], _ => []
  | c1 :: cs, d0 :: rest, last =>
    let d1 := rest.headD 0
    let v := if c1 = c2 then d0 else 1 + min d0 (min d1 last)
    v :: ged_inner c2 cs rest v

/-- Outer loop of `get_edit_distance`: Python
`for i2, c2 in enumerate(s2): distances_ = [i2+1]; ...; distances = distances_`. -/
def ged_outer (a : List Char) : List Nat → Nat → List Char → List Nat
  | dists, _, [] => dists
  | dists, i2, c2 :: rest =>
    ged_outer a ((i2 + 1) :: ged_inner c2 a dists (i2 + 1)) (i2 + 1) rest

/-- Embedding of `get_edit_distance(s1, s2)` (validation.py lines 664-683):
swap so the first string is the shorter, seed the row with
`range(len(s1) + 1)`, update the row once per character of `s2`, and
return `distances[-1]`. -/
def ged_main (a b : List Char) : Nat :=
  (ged_outer a (List.range (a.length + 1)) 0 b).getLastD 0

def get_edit_distance (s1 s2 : String) : Nat :=
  if s1.length > s2.length then ged_main s2.data s1.data else ged_main s1.data s2.data

/-- The Levenshtein distance between two strings, by the textbook
recursion; this is the reference definition the claims compare
`get_edit_distance` against. -/
def lev : List Char → List Char → Nat
  | [], t => t.length
  | _ :: s, [] => s.length + 1
  | c :: s, d :: t =>
    if c = d then lev s t
    else 1 + min (lev s t) (min (lev (c :: s) t) (lev s (d :: t)))
termination_by s t => s.length + t.length
decreasing_by all_goals simp_arith

theorem lev_nil_right (s : List Char) : lev s [] = s.length := by
  cases s with
  | nil => rw [lev]
  | cons c s => rw [lev]; simp

theorem lev_cons_cons (c d : Char) (s t : List Char) :
    lev (c :: s) (d :: t) =
      if c = d then lev s t
      else 1 + min (lev s t) (min (lev (c :: s) t) (lev s (d :: t))) := by
  rw [lev]

theorem lev_nil_left (t : List Char) : lev [] t = t.length := by
  rw [lev]

theorem lev_adjacent_aux :
    ∀ n : Nat, ∀ a b : List Char, a.length + b.length ≤ n →
      (∀ x, lev (x :: a) b ≤ 1 + lev a b) ∧ (∀ y, lev a b ≤ 1 + lev a (y :: b)) := by
  intro n
  induction n using Nat.strong_induction_on with
  | _ n ih =>
  intro a b hab
  constructor
  · intro x
    match b with
    | [] =>
      rw [lev_nil_right, lev_nil_right]
      simp only [List.length_cons]
      omega
    | y :: b =>
      rw [lev_cons_cons]
      by_cases hxy : x = y
      · rw [if_pos hxy]
        have hlt : a.length + b.length < n := by
          simp only [List.length_cons] at hab; omega
        exact (ih _ hlt a b le_rfl).2 y
      · rw [if_neg hxy]
        have h1 : min (lev a b) (min (lev (x :: a) b) (lev a (y :: b))) ≤ lev a (y :: b) :=
          le_trans (min_le_right _ _) (min_le_right _ _)
        omega
  · intro y
    match a with
    | [] =>
      rw [lev_nil_left, lev_nil_left]
      simp only [List.length_cons]
      omega
    | c :: a =>
      rw [lev_cons_cons (c := c) (d := y)]
      have hlt : a.length + b.length < n := by
        simp only [List.length_cons] at hab; omega
      by_cases hcy : c = y
      · rw [if_pos hcy]
        have := (ih _ hlt a b le_rfl).1 c
        omega
      · rw [if_neg hcy]
        have hc1 := (ih _ hlt a b le_rfl).1 c
        have hc2 := (ih _ hlt a b le_rfl).2 y
        rcases min_choice (lev a b) (min (lev (c :: a) b) (lev a (y :: b))) with h1 | h1
        · omega
        · rcases min_choice (lev (c :: a) b) (lev a (y :: b)) with h2 | h2 <;> omega

theorem lev_consL_le (x : Char) (a b : List Char) : lev (x :: a) b ≤ 1 + lev a b :=
  (lev_adjacent_aux (a.length + b.length) a b le_rfl).1 x

theorem lev_comm_aux : ∀ n : Nat, ∀ a b : List Char, a.length + b.length ≤ n →
    lev a b = lev b a := by
  intro n
  induction n using Nat.strong_induction_on with
  | _ n ih =>
  intro a b hab
  match a, b with
  | [], b => rw [lev_nil_left, lev_nil_right]
  | c :: a, [] => rw [lev_nil_left, lev_nil_right]
  | c :: a, d :: b =>
    rw [lev_cons_cons, lev_cons_cons]
    simp only [List.length_cons] at hab
    have h1 : lev a b = lev b a := ih (a.length + b.length) (by omega) a b le_rfl
    have h2 : lev (c :: a) b = lev b (c :: a) :=
      ih ((c :: a).length + b.length) (by simp only [List.length_cons]; omega) (c :: a) b le_rfl
    have h3 : lev a (d :: b) = lev (d :: b) a :=
      ih (a.length + (d :: b).length) (by simp only [List.length_cons]; omega) a (d :: b) le_rfl
    by_cases hcd : c = d
    · rw [if_pos hcd, if_pos hcd.symm, h1]
    · rw [if_neg hcd, if_neg (Ne.symm hcd), h1, h2, h3]
      rw [min_comm (lev b (c :: a)) (lev (d :: b) a)]

theorem lev_comm (a b : List Char) : lev a b = lev b a :=
  lev_comm_aux (a.length + b.length) a b le_rfl

theorem lev_consR_le (y : Char) (a b : List Char) : lev a (y :: b) ≤ 1 + lev a b := by
  rw [lev_comm a (y :: b), lev_comm a b]
  exact lev_consL_le y b a

/-! An alignment between two strings: a list of optional character pairs,
whose left (resp. right) projection recovers the first (resp. second)
string, and whose cost counts mismatching pairs.  The Levenshtein distance
is the minimum alignment cost; this characterisation is what makes it
reversal-invariant, which relates the prefix-based dynamic program of
`get_edit_distance` to the head-recursive `lev`. -/

def alProj1 : List (Option Char × Option Char) → List Char
  | [] => []
  | (some x, _) :: rest => x :: alProj1 rest
  | (none, _) :: rest => alProj1 rest

def alProj2 : List (Option Char × Option Char) → List Char
  | [] => []
  | (_, some y) :: rest => y :: alProj2 rest
  | (_, none) :: rest => alProj2 rest

def alCost : List (Option Char × Option Char) → Nat
  | [] => 0
  | p :: rest => (if p.1 = p.2 then 0 else 1) + alCost rest

theorem lev_le_alCost : ∀ al : List (Option Char × Option Char),
    lev (alProj1 al) (alProj2 al) ≤ alCost al := by
  intro al
  induction al with
  | nil => simp [alProj1, alProj2, alCost, lev_nil_left]
  | cons p rest ih =>
    obtain ⟨p1, p2⟩ := p
    match p1, p2 with
    | some x, some y =>
      show lev (x :: alProj1 rest) (y :: alProj2 rest) ≤
        (if (some x : Option Char) = some y then 0 else 1) + alCost rest
      rw [lev_cons_cons]
      by_cases hxy : x = y
      · rw [if_pos hxy, if_pos (by rw [hxy])]
        omega
      · rw [if_neg hxy, if_neg (by simp [hxy])]
        have hmin := min_le_left (lev (alProj1 rest) (alProj2 rest))
          (min (lev (x :: alProj1 rest) (alProj2 rest))
            (lev (alProj1 rest) (y :: alProj2 rest)))
        omega
    | some x, none =>
      show lev (x :: alProj1 rest) (alProj2 rest) ≤
        (if (some x : Option Char) = none then 0 else 1) + alCost rest
      rw [if_neg (by simp)]
      have h := lev_consL_le x (alProj1 rest) (alProj2 rest)
      omega
    | none, some y =>
      show lev (alProj1 rest) (y :: alProj2 rest) ≤
        (if (none : Option Char) = some y then 0 else 1) + alCost rest
      rw [if_neg (by simp)]
      have h := lev_consR_le y (alProj1 rest) (alProj2 rest)
      omega
    | none, none =>
      show lev (alProj1 rest) (alProj2 rest) ≤
        (if (none : Option Char) = none then 0 else 1) + alCost rest
      rw [if_pos rfl]
      omega

theorem alProj1_mapR (b : List Char) :
    alProj1 (b.map fun y => ((none : Option Char), some y)) = [] := by
  induction b with
  | nil => rfl
  | cons y b ih => simpa [alProj1] using ih

theorem alProj2_mapR (b : List Char) :
    alProj2 (b.map fun y => ((none : Option Char), some y)) = b := by
  induction b with
  | nil => rfl
  | cons y b ih => simpa [alProj2] using ih

theorem alCost_mapR (b : List Char) :
    alCost (b.map fun y => ((none : Option Char), some y)) = b.length := by
  induction b with
  | nil => rfl
  | cons y b ih => simp [alCost, ih]; omega

theorem alProj1_mapL (a : List Char) :
    alProj1 (a.map fun x => (some x, (none : Option Char))) = a := by
  induction a with
  | nil => rfl
  | cons x a ih => simpa [alProj1] using ih

theorem alProj2_mapL (a : List Char) :
    alProj2 (a.map fun x => (some x, (none : Option Char))) = [] := by
  induction a with
  | nil => rfl
  | cons x a ih => simpa [alProj2] using ih

theorem alCost_mapL (a : List Char) :
    alCost (a.map fun x => (some x, (none : Option Char))) = a.length := by
  induction a with
  | nil => rfl
  | cons x a ih => simp [alCost, ih]; omega

theorem exists_alignment_aux : ∀ n : Nat, ∀ a b : List Char, a.length + b.length ≤ n →
    ∃ al, alProj1 al = a ∧ alProj2 al = b ∧ alCost al = lev a b := by
  intro n
  induction n using Nat.strong_induction_on with
  | _ n ih =>
  intro a b hab
  match a, b with
  | [], b =>
    exact ⟨b.map fun y => (none, some y), alProj1_mapR b, alProj2_mapR b,
      by rw [alCost_mapR, lev_nil_left]⟩
  | c :: a, [] =>
    exact ⟨(c :: a).map fun x => (some x, none), alProj1_mapL _, alProj2_mapL _,
      by rw [alCost_mapL, lev_nil_right]⟩
  | c :: a, d :: b =>
    simp only [List.length_cons] at hab
    by_cases hcd : c = d
    · obtain ⟨al, p1, p2, pc⟩ := ih (a.length + b.length) (by omega) a b le_rfl
      refine ⟨(some c, some d) :: al, by simp [alProj1, p1], by simp [alProj2, p2], ?_⟩
      show (if (some c : Option Char) = some d then 0 else 1) + alCost al = _
      rw [if_pos (by rw [hcd]), lev_cons_cons, if_pos hcd, pc]
      omega
    · rw [lev_cons_cons, if_neg hcd]
      rcases min_choice (lev a b) (min (lev (c :: a) b) (lev a (d :: b))) with h1 | h1
      · obtain ⟨al, p1, p2, pc⟩ := ih (a.length + b.length) (by omega) a b le_rfl
        refine ⟨(some c, some d) :: al, by simp [alProj1, p1], by simp [alProj2, p2], ?_⟩
        show (if (some c : Option Char) = some d then 0 else 1) + alCost al = _
        rw [if_neg (by simp [hcd]), pc, h1]
      · rcases min_choice (lev (c :: a) b) (lev a (d :: b)) with h2 | h2
        · obtain ⟨al, p1, p2, pc⟩ :=
            ih ((c :: a).length + b.length) (by simp only [List.length_cons]; omega)
              (c :: a) b le_rfl
          refine ⟨(none, some d) :: al, by simp [alProj1, p1], by simp [alProj2, p2], ?_⟩
          show (if (none : Option Char) = some d then 0 else 1) + alCost al = _
          rw [if_neg (by simp), pc, h1, h2]
        · obtain ⟨al, p1, p2, pc⟩ :=
            ih (a.length + (d :: b).length) (by simp only [List.length_cons]; omega)
              a (d :: b) le_rfl
          refine ⟨(some c, none) :: al, by simp [alProj1, p1], by simp [alProj2, p2], ?_⟩
          show (if (some c : Option Char) = none then 0 else 1) + alCost al = _
          rw [if_neg (by simp), pc, h1, h2]

theorem exists_alignment (a b : List Char) :
    ∃ al, alProj1 al = a ∧ alProj2 al = b ∧ alCost al = lev a b :=
  exists_alignment_aux (a.length + b.length) a b le_rfl

theorem alProj1_append (l1 l2 : List (Option Char × Option Char)) :
    alProj1 (l1 ++ l2) = alProj1 l1 ++ alProj1 l2 := by
  induction l1 with
  | nil => rfl
  | cons p rest ih =>
    obtain ⟨p1, p2⟩ := p
    match p1 with
    | some x => simp [alProj1, ih]
    | none => simp [alProj1, ih]

theorem alProj2_append (l1 l2 : List (Option Char × Option Char)) :
    alProj2 (l1 ++ l2) = alProj2 l1 ++ alProj2 l2 := by
  induction l1 with
  | nil => rfl
  | cons p rest ih =>
    obtain ⟨p1, p2⟩ := p
    match p2 with
    | some y => simp [alProj2, ih]
    | none => simp [alProj2, ih]

theorem alCost_append (l1 l2 : List (Option Char × Option Char)) :
    alCost (l1 ++ l2) = alCost l1 + alCost l2 := by
  induction l1 with
  | nil => simp [alCost]
  | cons p rest ih => simp [alCost, ih]; omega

theorem alProj1_reverse (al : List (Option Char × Option Char)) :
    alProj1 al.reverse = (alProj1 al).reverse := by
  induction al with
  | nil => rfl
  | cons p rest ih =>
    obtain ⟨p1, p2⟩ := p
    match p1 with
    | some x => simp [alProj1, List.reverse_cons, alProj1_append, ih]
    | none => simp [alProj1, List.reverse_cons, alProj1_append, ih]

theorem alProj2_reverse (al : List (Option Char × Option Char)) :
    alProj2 al.reverse = (alProj2 al).reverse := by
  induction al with
  | nil => rfl
  | cons p rest ih =>
    obtain ⟨p1, p2⟩ := p
    match p2 with
    | some y => simp [alProj2, List.reverse_cons, alProj2_append, ih]
    | none => simp [alProj2, List.reverse_cons, alProj2_append, ih]

theorem alCost_reverse (al : List (Option Char × Option Char)) :
    alCost al.reverse = alCost al := by
  induction al with
  | nil => rfl
  | cons p rest ih =>
    rw [List.reverse_cons, alCost_append, ih]
    show _ = (if p.1 = p.2 then 0 else 1) + alCost rest
    show alCost rest + ((if p.1 = p.2 then 0 else 1) + 0) = _
    omega

theorem lev_reverse (a b : List Char) : lev a.reverse b.reverse = lev a b := by
  have key : ∀ a b : List Char, lev a.reverse b.reverse ≤ lev a b := by
    intro a b
    obtain ⟨al, p1, p2, pc⟩ := exists_alignment a b
    have h := lev_le_alCost al.reverse
    rw [alProj1_reverse, alProj2_reverse, alCost_reverse, p1, p2, pc] at h
    exact h
  refine le_antisymm (key a b) ?_
  simpa using key a.reverse b.reverse

/-! Correctness of the dynamic program: after processing a prefix of the
second string, the live row holds the distances between the reversed
prefixes of the first string and the reversed processed prefix. -/

def rowFrom (u : List Char) : List Char → List Char → List Nat
  | [], _ => []
  | c :: cs, t => lev (c :: u) t :: rowFrom (c :: u) cs t

theorem ged_inner_eq (cs : List Char) : ∀ (u t : List Char) (c2 : Char),
    ged_inner c2 cs (lev u t :: rowFrom u cs t) (lev u (c2 :: t)) = rowFrom u cs (c2 :: t) := by
  induction cs with
  | nil => intro u t c2; rfl
  | cons c1 cs ih =>
    intro u t c2
    show ged_inner c2 (c1 :: cs)
      (lev u t :: (lev (c1 :: u) t :: rowFrom (c1 :: u) cs t)) (lev u (c2 :: t)) = _
    rw [ged_inner]
    have hv : (if c1 = c2 then lev u t
        else 1 + min (lev u t) (min ((lev (c1 :: u) t :: rowFrom (c1 :: u) cs t).headD 0)
          (lev u (c2 :: t)))) = lev (c1 :: u) (c2 :: t) := by
      rw [lev_cons_cons]
      rfl
    rw [hv]
    show lev (c1 :: u) (c2 :: t) ::
        ged_inner c2 cs (lev (c1 :: u) t :: rowFrom (c1 :: u) cs t) (lev (c1 :: u) (c2 :: t)) = _
    rw [ih (c1 :: u) t c2]
    rfl

theorem ged_outer_eq (rest : List Char) : ∀ (a t : List Char),
    ged_outer a (lev [] t :: rowFrom [] a t) t.length rest
      = lev [] (rest.reverse ++ t) :: rowFrom [] a (rest.reverse ++ t) := by
  induction rest with
  | nil => intro a t; rfl
  | cons c2 rest ih =>
    intro a t
    rw [ged_outer]
    have h1 : t.length + 1 = lev [] (c2 :: t) := by rw [lev_nil_left]; rfl
    rw [h1, ged_inner_eq a [] t c2]
    have h2 : lev [] (c2 :: t) = (c2 :: t).length := by rw [lev_nil_left]
    rw [show ged_outer a (lev [] (c2 :: t) :: rowFrom [] a (c2 :: t)) (lev [] (c2 :: t)) rest
        = ged_outer a (lev [] (c2 :: t) :: rowFrom [] a (c2 :: t)) (c2 :: t).length rest from by
      rw [h2], ih a (c2 :: t)]
    simp [List.reverse_cons, List.append_assoc]

theorem rowFrom_nilT (cs : List Char) : ∀ u : List Char,
    rowFrom u cs [] = List.range' (u.length + 1) cs.length := by
  induction cs with
  | nil => intro u; rfl
  | cons c cs ih =>
    intro u
    show lev (c :: u) [] :: rowFrom (c :: u) cs [] = _
    rw [lev_nil_right, ih (c :: u)]
    rfl

theorem rowFrom_getLastD (cs : List Char) : ∀ (u t : List Char),
    (rowFrom u cs t).getLastD (lev u t) = lev (cs.reverse ++ u) t := by
  induction cs with
  | nil => intro u t; rfl
  | cons c cs ih =>
    intro u t
    show (lev (c :: u) t :: rowFrom (c :: u) cs t).getLastD (lev u t) = _
    rw [List.getLastD_cons, ih (c :: u) t]
    simp [List.reverse_cons, List.append_assoc]

theorem ged_main_eq_lev (a b : List Char) : ged_main a b = lev a b := by
  have hinit : List.range (a.length + 1) = lev [] [] :: rowFrom [] a [] := by
    rw [List.range_eq_range', rowFrom_nilT a [],
      show lev ([] : List Char) [] = 0 from by rw [lev_nil_left]; rfl]
    rfl
  have h1 : ged_main a b = (lev [] b.reverse :: rowFrom [] a b.reverse).getLastD 0 := by
    unfold ged_main
    rw [hinit]
    have h := ged_outer_eq b a []
    simp only [List.append_nil] at h
    exact congrArg (fun l => l.getLastD 0) h
  rw [h1, List.getLastD_cons, rowFrom_getLastD a [] b.reverse, List.append_nil, lev_reverse]

theorem get_edit_distance_eq_lev (s1 s2 : String) :
    get_edit_distance s1 s2 = lev s1.data s2.data := by
  unfold get_edit_distance
  split_ifs with h
  · rw [ged_main_eq_lev, lev_comm]
  · rw [ged_main_eq_lev]

/-- One iteration of the loop in `find_closest_match` (validation.py lines
637-645).  `best` is `best_match` (`None` or a triple of candidate, its
edit distance, and its common-prefix length with `s`); the Python guard
`distance > max_distance` with `max_distance = len(s) / 2` (real division)
is the integer condition `len(s) < 2 * distance`. -/
def fcm_step (s : String) (best : Option (String × Nat × Nat)) (value : String) :
    Option (String × Nat × Nat) :=
  let distance := get_edit_distance s value
  match best with
  | none =>
    if s.length < 2 * distance then none
    else some (value, distance, get_common_prefix_len s value)
  | some b =>
    if distance > b.2.1 ∨ s.length < 2 * distance then some b
    else
      let plen := get_common_prefix_len s value
      if distance < b.2.1 ∨ (distance = b.2.1 ∧ plen > b.2.2) then some (value, distance, plen)
      else some b

/-- Embedding of `find_closest_match(s, allowed_values)` (validation.py
lines 627-649). -/
def find_closest_match (s : String) (allowed_values : List String) : Option String :=
  match allowed_values.foldl (fcm_step s) none with
  | none => none
  | some b => some b.1

/-- Loop invariant for `find_closest_match`: `best` is `None` exactly when
every candidate seen so far fails the cutoff; otherwise it is a seen
candidate within the cutoff, carrying its own distance and prefix length,
of minimal distance among seen cutoff-passing candidates, and of maximal
prefix length among seen candidates tied at that distance. -/
def fcmInv (s : String) (processed : List String) :
    Option (String × Nat × Nat) → Prop
  | none => ∀ c ∈ processed, s.length < 2 * get_edit_distance s c
  | some b => b.1 ∈ processed ∧ b.2.1 = get_edit_distance s b.1
      ∧ b.2.2 = get_common_prefix_len s b.1
      ∧ 2 * b.2.1 ≤ s.length
      ∧ (∀ c ∈ processed, 2 * get_edit_distance s c ≤ s.length →
          b.2.1 ≤ get_edit_distance s c)
      ∧ (∀ c ∈ processed, get_edit_distance s c = b.2.1 →
          get_common_prefix_len s c ≤ b.2.2)

theorem fcm_step_inv (s : String) (processed : List String)
    (best : Option (String × Nat × Nat)) (c0 : String) (h : fcmInv s processed best) :
    fcmInv s (processed ++ [c0]) (fcm_step s best c0) := by
  match best with
  | none =>
    show fcmInv s (processed ++ [c0])
      (if s.length < 2 * get_edit_distance s c0 then none
       else some (c0, get_edit_distance s c0, get_common_prefix_len s c0))
    split_ifs with hcut
    · intro c hc
      rcases List.mem_append.mp hc with hc | hc
      · exact h c hc
      · rw [List.mem_singleton.mp hc]; exact hcut
    · dsimp only [fcmInv]
      refine ⟨List.mem_append.mpr (Or.inr (List.mem_singleton.mpr rfl)), rfl, rfl, by omega,
        ?_, ?_⟩
      · intro c hc hcle
        rcases List.mem_append.mp hc with hc | hc
        · exact absurd hcle (by have := h c hc; omega)
        · rw [List.mem_singleton.mp hc]
      · intro c hc hcd
        rcases List.mem_append.mp hc with hc | hc
        · have hcc := h c hc
          rw [hcd] at hcc
          omega
        · rw [List.mem_singleton.mp hc]
  | some b =>
    obtain ⟨hmem, hd, hp, hcut, hmin, hpref⟩ := h
    show fcmInv s (processed ++ [c0])
      (if get_edit_distance s c0 > b.2.1 ∨ s.length < 2 * get_edit_distance s c0 then some b
       else if get_edit_distance s c0 < b.2.1 ∨
           (get_edit_distance s c0 = b.2.1 ∧ get_common_prefix_len s c0 > b.2.2) then
         some (c0, get_edit_distance s c0, get_common_prefix_len s c0)
       else some b)
    split_ifs with hskip hupd
    · -- skipped: candidate farther than best, or cutoff failed
      dsimp only [fcmInv]
      refine ⟨List.mem_append.mpr (Or.inl hmem), hd, hp, hcut, ?_, ?_⟩
      · intro c hc hcle
        rcases List.mem_append.mp hc with hc | hc
        · exact hmin c hc hcle
        · rw [List.mem_singleton.mp hc] at hcle ⊢
          rcases hskip with hskip | hskip
          · omega
          · omega
      · intro c hc hcd
        rcases List.mem_append.mp hc with hc | hc
        · exact hpref c hc hcd
        · rw [List.mem_singleton.mp hc] at hcd ⊢
          rcases hskip with hskip | hskip
          · omega
          · rw [hcd] at hskip; omega
    · -- updated: strictly smaller distance, or tied with longer prefix
      push_neg at hskip
      obtain ⟨hle, hcut0⟩ := hskip
      dsimp only [fcmInv]
      refine ⟨List.mem_append.mpr (Or.inr (List.mem_singleton.mpr rfl)), rfl, rfl, by omega,
        ?_, ?_⟩
      · intro c hc hcle
        rcases List.mem_append.mp hc with hc | hc
        · exact le_trans hle (hmin c hc hcle)
        · rw [List.mem_singleton.mp hc]
      · intro c hc hcd
        rcases List.mem_append.mp hc with hc | hc
        · rcases hupd with hupd | hupd
          · exact absurd (hcd ▸ hmin c hc (by omega)) (by omega)
          · exact le_trans (hpref c hc (by omega)) (by omega)
        · rw [List.mem_singleton.mp hc]
    · -- kept: tied distance but no longer prefix, since the skip test
      -- already forces the distance to be less than or equal to the best
      push_neg at hskip hupd
      obtain ⟨hle, hcut0⟩ := hskip
      obtain ⟨hnlt, hnp⟩ := hupd
      have heq : get_edit_distance s c0 = b.2.1 := by omega
      dsimp only [fcmInv]
      refine ⟨List.mem_append.mpr (Or.inl hmem), hd, hp, hcut, ?_, ?_⟩
      · intro c hc hcle
        rcases List.mem_append.mp hc with hc | hc
        · exact hmin c hc hcle
        · rw [List.mem_singleton.mp hc]; omega
      · intro c hc hcd
        rcases List.mem_append.mp hc with hc | hc
        · exact hpref c hc hcd
        · rw [List.mem_singleton.mp hc]; exact hnp heq

theorem fcm_foldl_inv (s : String) (l : List String) : ∀ (processed : List String)
    (best : Option (String × Nat × Nat)), fcmInv s processed best →
    fcmInv s (processed ++ l) (l.foldl (fcm_step s) best) := by
  induction l with
  | nil => intro processed best h; simpa using h
  | cons c0 l ih =>
    intro processed best h
    have h1 := fcm_step_inv s processed best c0 h
    have h2 := ih (processed ++ [c0]) (fcm_step s best c0) h1
    simpa [List.append_assoc] using h2

theorem fcm_inv_main (s : String) (cands : List String) :
    fcmInv s cands (cands.foldl (fcm_step s) none) := by
  have h0 : fcmInv s [] none := by intro c hc; cases hc
  simpa using fcm_foldl_inv s cands [] none h0

/-! ## Data model for the validation pipeline

`hxl.model` (tag patterns, columns, rows) and `hxl.datatypes` (value
normalisation and datatype recognition) belong to this repository but are
not under src/; they are modelled from the spec below. -/

/-! String primitives, implemented over `List Char` so that every
definition reduces inside the kernel (the compiled built-in `String`
loops do not). -/

/-- Python `str.strip`. -/
def trimChars (cs : List Char) : List Char :=
  ((cs.dropWhile Char.isWhitespace).reverse.dropWhile Char.isWhitespace).reverse

/-- The maximal non-whitespace runs of a character list (Python
`str.split()` with no separator); `cur` accumulates the current run in
reverse. -/
def wordsAux : List Char → List Char → List (List Char)
  | [], cur => if cur.isEmpty then [] else [cur.reverse]
  | c :: cs, cur =>
    if c.isWhitespace then
      if cur.isEmpty then wordsAux cs [] else cur.reverse :: wordsAux cs []
    else wordsAux cs (c :: cur)

/-- Rejoin words with single spaces. -/
def joinSpace : List (List Char) → List Char
  | [] => []
  | [w] => w
  | w :: ws => w ++ ' ' :: joinSpace ws

/-- Python `str.split(sep)` for a one-character separator. -/
def splitOnCharAux (c : Char) : List Char → List Char → List (List Char)
  | [], cur => [cur.reverse]
  | x :: xs, cur =>
    if x = c then cur.reverse :: splitOnCharAux c xs []
    else splitOnCharAux c xs (x :: cur)

def splitOnChar (c : Char) (cs : List Char) : List (List Char) :=
  splitOnCharAux c cs []

/-- The text before and after the first occurrence of `sep`. -/
def breakSeq (sep : List Char) : List Char → Option (List Char × List Char)
  | [] => none
  | c :: cs =>
    if sep.isPrefixOf (c :: cs) then some ([], (c :: cs).drop sep.length)
    else match breakSeq sep cs with
      | some pq => some (c :: pq.1, pq.2)
      | none => none

/-- Python `str.lower`. -/
def strLower (s : String) : String := String.mk (s.data.map Char.toLower)

/-- Python `sep.join(l)`. -/
def strJoin (sep : String) : List String → String
  | [] => ""
  | [x] => x
  | x :: rest => x ++ sep ++ strJoin sep rest

/-- Modelled from the spec: a column of the external row model
(`hxl.model.Column`): a hashtag, its attributes, and the display tag used
as the key of the accumulation maps. -/
structure Column where
  tag : String
  attributes : List String
  display_tag : String
deriving DecidableEq, Repr

def defaultColumn : Column := ⟨"", [], ""⟩

/-- Modelled from the spec: a tag pattern (`hxl.model.TagPattern`), "a
predicate over a column, expressing a hashtag plus optional attribute
constraints": the column must carry the same hashtag, all the included
attributes, and none of the excluded ones. -/
structure TagPattern where
  tag : String
  include_attrs : List String
  exclude_attrs : List String
deriving DecidableEq, Repr

def TagPattern.matchesCol (p : TagPattern) (c : Column) : Bool :=
  p.tag == c.tag && p.include_attrs.all (fun a => c.attributes.contains a)
    && p.exclude_attrs.all (fun a => !(c.attributes.contains a))

def TagPattern.toStr (p : TagPattern) : String :=
  p.tag ++ String.join (p.include_attrs.map (fun a => "+" ++ a))
    ++ String.join (p.exclude_attrs.map (fun a => "-" ++ a))

/-- Split the text of a tag pattern into its leading hashtag and signed
attribute segments (`true` = included via `+`, `false` = excluded via `-`). -/
def attrSegments : List Char → String → Bool → List (Bool × String)
  | [], cur, sign => [(sign, cur)]
  | c :: rest, cur, sign =>
    if c = '+' then (sign, cur) :: attrSegments rest "" true
    else if c = '-' then (sign, cur) :: attrSegments rest "" false
    else attrSegments rest (cur.push c) sign

/-- Modelled from the spec: `hxl.model.TagPattern.parse`, reading a
hashtag with optional `+attr` / `-attr` constraints. -/
def TagPattern.parse (s : String) : TagPattern :=
  match attrSegments (trimChars s.data) "" true with
  | [] => ⟨s, [], []⟩
  | (_, tag) :: attrs =>
    ⟨tag, (attrs.filter (·.1)).map (·.2), (attrs.filter (fun a => !a.1)).map (·.2)⟩

/-- Modelled from the spec: `hxl.model.TagPattern.parse_list`, reading a
comma-separated list of tag patterns. -/
def TagPattern.parse_list (s : String) : List TagPattern :=
  ((splitOnChar ',' s.data).map String.mk).map TagPattern.parse

/-- Modelled from the spec: a row of the external row model
(`hxl.model.Row`): "an ordered sequence of (Column, value) pairs, all
sharing one logical record", with a row number standing for the row
object's identity in error reports. -/
structure Row where
  rownum : Nat
  columns : List Column
  values : List String
deriving DecidableEq, Repr

/-- Modelled from the spec: `hxl.datatypes.is_empty`: a value is empty
when it is the empty string or only whitespace. -/
def is_empty (s : String) : Bool := s.data.all Char.isWhitespace

/-- Modelled from the spec: `hxl.datatypes.normalise_space` collapses
whitespace runs and trims the ends ("only whitespace is collapsed"). -/
def normalise_space (s : String) : String :=
  String.mk (joinSpace (wordsAux s.data []))

/-- Modelled from the spec: `hxl.datatypes.normalise_string`: "value is
lowercased/space-collapsed". -/
def normalise_string (s : String) : String :=
  strLower (normalise_space s)

/-- Modelled from the spec: `hxl.datatypes.normalise`, the generic value
normalisation used for accumulation keys. -/
def normalise (s : String) : String := normalise_string s

def digitsToNat (cs : List Char) : Nat :=
  cs.foldl (fun n c => n * 10 + (c.toNat - 48)) 0

/-- Modelled from the spec: parsing a value "as a numeric literal per the
external datatype helper" (Python `float(value)` as used by the range
check, and `hxl.datatypes.is_number`): optional sign, decimal digits with
an optional fractional part, over `Rat`. -/
def parse_float (s : String) : Option Rat :=
  let t := trimChars s.data
  let sg : Rat := if t.headD ' ' = '-' then -1 else 1
  let t2 := if t.headD ' ' = '-' || t.headD ' ' = '+' then t.drop 1 else t
  match splitOnChar '.' t2 with
  | [ip] =>
    if !ip.isEmpty && ip.all Char.isDigit then some (sg * (digitsToNat ip : Rat))
    else none
  | [ip, fp] =>
    if !(ip ++ fp).isEmpty && ip.all Char.isDigit && fp.all Char.isDigit then
      some (sg * (digitsToNat (ip ++ fp) : Rat) / ((10 : Rat) ^ fp.length))
    else none
  | _ => none

/-- Modelled from the spec: `hxl.datatypes.is_number`. -/
def is_number (s : String) : Bool := (parse_float s).isSome

/-- Modelled from the spec: `hxl.datatypes.is_date`, "the external
date-recognition helper", recognising ISO-style year / year-month /
year-month-day values. -/
def is_date (s : String) : Bool :=
  match splitOnChar '-' (trimChars s.data) with
  | [y] => y.length = 4 && y.all Char.isDigit
  | [y, m] => y.length = 4 && y.all Char.isDigit && m.length = 2 && m.all Char.isDigit
  | [y, m, d] => y.length = 4 && y.all Char.isDigit && m.length = 2
      && m.all Char.isDigit && d.length = 2 && d.all Char.isDigit
  | _ => false

/-- Modelled from the spec: `hxl.datatypes.typeof` "infers its datatype
(external helper)"; per the spec's consistency example, numeric literals
infer `number` and other non-empty values `text`. -/
def typeof (s : String) : String :=
  if is_empty s then "empty"
  else if is_number s then "number"
  else if is_date s then "date"
  else "text"

/-- Modelled from the spec: `urllib.parse.urlparse` as used by the url
type test: "requires both scheme and host present". -/
def urlSchemeNetloc (s : String) : Bool :=
  match breakSeq "://".data s.data with
  | some pq => !pq.1.isEmpty && !(pq.2.takeWhile (fun c => c ≠ '/')).isEmpty
  | none => false

/-- The email test regex of `_test_type`: one `@`, non-empty on both sides. -/
def emailMatch (s : String) : Bool :=
  match splitOnChar '@' s.data with
  | [a, b] => !a.isEmpty && !b.isEmpty
  | _ => false

/-- The phone test regex of `_test_type`: optional leading `+`, then at
least five characters drawn from digits, `x`, `X`, parentheses,
whitespace and hyphen. -/
def phoneMatch (s : String) : Bool :=
  let t := if s.data.headD ' ' = '+' then s.data.drop 1 else s.data
  t.length ≥ 5 && t.all (fun c =>
    c.isDigit || c = 'x' || c = 'X' || c = '(' || c = ')' || c.isWhitespace || c = '-')

/-- A compiled Python regular expression, modelled as its pattern text
with a matching function: `run v ig` stands for `re.match(pattern, v,
flags)` (anchored at the start of `v`), `ig` true when the flags contain
`re.IGNORECASE`.  The regex engine is outside the embedded code; every
pattern the claims exercise is a literal string, for which `re.match` is
a (possibly case-folded) prefix test, and `compileRegex` builds exactly
that matcher. -/
structure PyRegex where
  pattern : String
  run : String → Bool → Bool

def compileRegex (p : String) : PyRegex :=
  ⟨p, fun v ig =>
    if ig then (strLower p).data.isPrefixOf (strLower v).data
    else p.data.isPrefixOf v.data⟩

/-- Embedding of `HXLValidationException` as the callback payload (the
originating rule object is dropped; the row is represented by its row
number).  Message texts follow the source format strings, rendering
numbers, patterns and lists through the helpers below. -/
structure ValidationError where
  message : String
  value : Option String
  rownum : Option Nat
  column : Option Column
  suggested_value : Option String
deriving DecidableEq, Repr

def optIntStr : Option Int → String
  | some n => toString n
  | none => "None"

def ratStr (q : Rat) : String :=
  if q.den = 1 then toString q.num else toString q.num ++ "/" ++ toString q.den

def pyListStr (l : List String) : String :=
  "[" ++ strJoin ", " l ++ "]"

/-- Insertion-ordered association list lookup (Python `dict` get). -/
def alGet {α β : Type} [DecidableEq α] : List (α × β) → α → Option β
  | [], _ => none
  | (k2, v) :: rest, k => if k2 = k then some v else alGet rest k

/-- Insertion-ordered association list update: Python
`d.setdefault(k, dflt)` followed by an in-place mutation `f` of the entry
(appending the key on first use, preserving insertion order). -/
def alUpd {α β : Type} [DecidableEq α] : List (α × β) → α → β → (β → β) → List (α × β)
  | [], k, dflt, f => [(k, f dflt)]
  | (k2, v2) :: rest, k, dflt, f =>
    if k2 = k then (k2, f v2) :: rest else (k2, v2) :: alUpd rest k dflt f

/-- Stable insertion into a descending-sorted list: the new element goes
after every element whose key is not strictly smaller.  Folding a list
through this reproduces Python `sorted(..., reverse=True)`, which is a
stable descending sort. -/
def insertDescBy {α : Type} (lt : α → α → Bool) (x : α) : List α → List α
  | [] => [x]
  | y :: ys => if lt y x then x :: y :: ys else y :: insertDescBy lt x ys

def sortDescBy {α : Type} (lt : α → α → Bool) (l : List α) : List α :=
  l.foldl (fun acc x => insertDescBy lt x acc) []

/-- Python comparison of tuples of strings (lexicographic, shorter-first
on a common prefix). -/
def listStrLt : List String → List String → Bool
  | [], [] => false
  | [], _ :: _ => true
  | _ :: _, [] => false
  | a :: as2, b :: bs =>
    if a < b then true else if b < a then false else listStrLt as2 bs

/-- Locations stored by the correlation map: `(row, column)`. -/
abbrev CorrLoc := Nat × Column

/-- The correlation map: hashtag → value → correlation key → locations,
every level in insertion order. -/
abbrev CorrMap := List (String × List (String × List (List String × List CorrLoc)))

/-- The consistency map: hashtag → inferred type → `(row, column, value)`
entries, every level in insertion order. -/
abbrev ConsMap := List (String × List (String × List (Nat × Column × String)))

/-- Intermediate `DecidableEq` instances for the nested map types
(registered stepwise so instance search stays within its size limit). -/
instance : DecidableEq CorrLoc := inferInstance

instance : DecidableEq (List String × List CorrLoc) := inferInstance

instance : DecidableEq (String × List (List String × List CorrLoc)) := inferInstance

instance : DecidableEq (String × List (String × List (List String × List CorrLoc))) :=
  inferInstance

instance : DecidableEq CorrMap := inferInstance

instance : DecidableEq (Nat × Column × String) := inferInstance

instance : DecidableEq (String × List (Nat × Column × String)) := inferInstance

instance : DecidableEq (String × List (String × List (Nat × Column × String))) := inferInstance

instance : DecidableEq ConsMap := inferInstance

def corrInsert (m : CorrMap) (hashtag value : String) (key : List String)
    (loc : CorrLoc) : CorrMap :=
  alUpd m hashtag [] (fun vm => alUpd vm value [] (fun km =>
    alUpd km key [] (fun locs => locs ++ [loc])))

def consInsert (m : ConsMap) (hashtag ty : String) (entry : Nat × Column × String) : ConsMap :=
  alUpd m hashtag [] (fun tm => alUpd tm ty [] (fun es => es ++ [entry]))

/-- Embedding of `SchemaRule` after `init()`: configuration fields plus
the mutable accumulation state (`_enum_map`, `_unique_value_map`,
`_unique_key_map`, `_correlation_map`, `_suggestion_map`,
`_consistency_map`), all as insertion-ordered lists. -/
structure SchemaRule where
  tag_pattern : TagPattern
  min_occur : Option Int := none
  max_occur : Option Int := none
  data_type : Option String := none
  min_value : Option Rat := none
  max_value : Option Rat := none
  regex : Option PyRegex := none
  enum : Option (List String) := none
  case_sensitive : Bool := false
  consistent_datatypes : Bool := false
  severity : String := "error"
  description : Option String := none
  required : Bool := false
  unique : Bool := false
  unique_key : Option (List TagPattern) := none
  correlation_key : Option (List TagPattern) := none
  enum_map : List (String × String) := []
  unique_value_map : List String := []
  unique_key_map : List (List String) := []
  correlation_map : CorrMap := []
  suggestion_map : List (String × String) := []
  consistency_map : ConsMap := []

/-- Modelled from the spec: `hxl.model.Row.get_all(pattern)`: "extracts
all values in the row matching this rule's tag pattern (order = column
order)". -/
def Row.get_all (row : Row) (p : TagPattern) : List String :=
  ((row.columns.zip row.values).filter (fun cv => p.matchesCol cv.1)).map (·.2)

/-- Modelled from the spec: `hxl.model.Row.key(patterns)`: "computes a
composite key from the row's values at the key's tag patterns",
normalising each value. -/
def Row.key (row : Row) (patterns : List TagPattern) : List String :=
  ((patterns.map (fun p => (row.get_all p).map normalise)).flatten)

/-! ## SchemaRule per-value tests (validation.py lines 317-444) -/

/-- Embedding of `SchemaRule._test_type` (lines 364-383).  Note that the
raw value is passed as the fifth positional argument of `_report_error`,
which is its `suggested_value` parameter. -/
def SchemaRule.test_type (r : SchemaRule) (value : String) (rn : Option Nat)
    (col : Option Column) (raw : String) : Bool × List ValidationError :=
  match r.data_type with
  | some "number" =>
    if !is_number value then (false, [⟨"Expected a number", some value, rn, col, some raw⟩])
    else (true, [])
  | some "url" =>
    if !urlSchemeNetloc value then (false, [⟨"Expected a URL", some value, rn, col, some raw⟩])
    else (true, [])
  | some "email" =>
    if !emailMatch value then
      (false, [⟨"Expected an email address", some value, rn, col, some raw⟩])
    else (true, [])
  | some "phone" =>
    if !phoneMatch value then
      (false, [⟨"Expected a phone number", some value, rn, col, some raw⟩])
    else (true, [])
  | some "date" =>
    if !is_date value then
      (false, [⟨"Expected a date of some sort", some value, rn, col, some raw⟩])
    else (true, [])
  | _ => (true, [])

/-- Embedding of `SchemaRule._test_range` (lines 385-397): when a bound is
set the value is parsed as a float; a parse failure is caught as a
`ValueError` and makes the result false WITHOUT reporting any error.
Both the `value` and `suggested_value` arguments of the range reports are
the raw value. -/
def SchemaRule.test_range (r : SchemaRule) (value : String) (rn : Option Nat)
    (col : Option Column) (raw : String) : Bool × List ValidationError :=
  match r.min_value, r.max_value with
  | none, none => (true, [])
  | _, _ =>
    match parse_float value with
    | none => (false, [])
    | some q =>
      let p1 : Bool × List ValidationError :=
        match r.min_value with
        | some mn =>
          if q < mn then
            (false, [⟨"Value is less than " ++ ratStr mn, some raw, rn, col, some raw⟩])
          else (true, [])
        | none => (true, [])
      let p2 : Bool × List ValidationError :=
        match r.max_value with
        | some mx =>
          if q > mx then
            (false, [⟨"Value is great than " ++ ratStr mx, some raw, rn, col, some raw⟩])
          else (true, [])
        | none => (true, [])
      (p1.1 && p2.1, p1.2 ++ p2.2)

/-- Embedding of `SchemaRule._test_pattern` (lines 399-408).  The source
sets `flags = re.IGNORECASE` exactly when `case_sensitive` is true, and
this embedding reproduces that: the ignore-case flag passed to the match
is `r.case_sensitive` itself.  (The message renders the compiled regex by
its pattern text.) -/
def SchemaRule.test_pattern (r : SchemaRule) (value : String) (rn : Option Nat)
    (col : Option Column) (raw : String) : Bool × List ValidationError :=
  match r.regex with
  | none => (true, [])
  | some rx =>
    if !rx.run value r.case_sensitive then
      (false, [⟨"Failed to match pattern " ++ rx.pattern, some value, rn, col, some raw⟩])
    else (true, [])

/-- After `init()`, `_enum_map is not None` exactly when the configured
`enum` was truthy (a non-empty collection). -/
def SchemaRule.enum_active (r : SchemaRule) : Bool :=
  match r.enum with
  | some l => !l.isEmpty
  | none => false

/-- The suggested value computed by `SchemaRule._test_enumeration` (lines
413-416): the memoised suggestion, else the closest match among the
normalised enum keys, mapped back to the original unnormalised value
unless falsy. -/
def SchemaRule.enum_suggestion (r : SchemaRule) (value : String) : Option String :=
  let s0 : Option String :=
    match alGet r.suggestion_map value with
    | some v => some v
    | none => find_closest_match value (r.enum_map.map (·.1))
  match s0 with
  | none => none
  | some k => if k = "" then some k else some ((alGet r.enum_map k).getD k)

/-- Embedding of `SchemaRule._test_enumeration` (lines 410-429). -/
def SchemaRule.test_enumeration (r : SchemaRule) (value : String) (rn : Option Nat)
    (col : Option Column) (raw : String) : Bool × List ValidationError :=
  if r.enum_active then
    if (r.enum_map.map (·.1)).contains value then (true, [])
    else
      let es := r.enum.getD []
      let msg := if es.length ≤ 7 then "Must be one of " ++ pyListStr es
        else "Not in allowed values"
      (false, [⟨msg, some raw, rn, col, r.enum_suggestion value⟩])
  else (true, [])

/-- Embedding of `SchemaRule._test_unique` (lines 431-444): records the
normalised value on first sight, reports a duplicate afterwards. -/
def SchemaRule.test_unique (r : SchemaRule) (value : String) (rn : Option Nat)
    (col : Option Column) (raw : String) : SchemaRule × Bool × List ValidationError :=
  if r.unique then
    let nv := normalise value
    if r.unique_value_map.contains nv then
      (r, false, [⟨"Found duplicate value", some raw, rn, col, none⟩])
    else
      ({ r with unique_value_map := r.unique_value_map ++ [nv] }, true, [])
  else (r, true, [])

/-- Embedding of `SchemaRule.validate` (lines 317-347): empty values pass;
otherwise the value is space-collapsed (and lowercased unless
`case_sensitive`) and all five sub-checks run, their results conjoined
and their reports concatenated in order. -/
def SchemaRule.validate (r : SchemaRule) (raw : String) (rn : Option Nat)
    (col : Option Column) : SchemaRule × Bool × List ValidationError :=
  if is_empty raw then (r, true, [])
  else
    let value := if r.case_sensitive then normalise_space raw else normalise_string raw
    let t1 := r.test_type value rn col raw
    let t2 := r.test_range value rn col raw
    let t3 := r.test_pattern value rn col raw
    let t4 := r.test_enumeration value rn col raw
    let t5 := r.test_unique value rn col raw
    (t5.1, t1.1 && t2.1 && t3.1 && t4.1 && t5.2.1,
      t1.2 ++ t2.2 ++ t3.2 ++ t4.2 ++ t5.2.2)

/-- Embedding of `SchemaRule.validate_columns` (lines 197-215). -/
def SchemaRule.validate_columns (r : SchemaRule) (columns : List Column) :
    Bool × List ValidationError :=
  if r.required || (match r.min_occur with | some n => n > 0 | none => false) then
    let number_seen := (columns.filter (fun c => r.tag_pattern.matchesCol c)).length
    if (r.required && number_seen < 1)
        || (match r.min_occur with | some n => (number_seen : Int) < n | none => false) then
      if number_seen = 0 then
        (false, [⟨"column with this hashtag required but not found", none, none, none, none⟩])
      else
        (false, [⟨"not enough columns with this hashtag (expected " ++ optIntStr r.min_occur
          ++ " but found " ++ toString number_seen ++ ")", none, none, none, none⟩])
    else (true, [])
  else (true, [])

/-- The loop over matching values in `validate_row` (lines 239-243):
validates each value (locating it, as the source does, at
`row.columns[i]` for `i` the index in the FILTERED value list) and counts
the truthy (non-empty-string) values. -/
def valuesLoop (row : Row) : SchemaRule → List String → Nat →
    SchemaRule × Bool × List ValidationError × Nat
  | r, [], _ => (r, true, [], 0)
  | r, v :: vs, i =>
    let t := r.validate v (some row.rownum) (some (row.columns.getD i defaultColumn))
    let rest := valuesLoop row t.1 vs (i + 1)
    (rest.1, t.2.1 && rest.2.1, t.2.2 ++ rest.2.2.1,
      (if v ≠ "" then 1 else 0) + rest.2.2.2)

/-- The first matching non-empty `(column, value)` pair of a row: the
correlation block of `validate_row` skips empty matching values
(`continue`) and stops after recording the first non-empty one (`break`). -/
def firstMatchingNonEmpty (row : Row) (p : TagPattern) : Option (Column × String) :=
  (row.columns.zip row.values).find? (fun cv => p.matchesCol cv.1 && !is_empty cv.2)

/-- Conjoin results and concatenate reports, in order. -/
def andConcat (l : List (Bool × List ValidationError)) : Bool × List ValidationError :=
  l.foldr (fun p acc => (p.1 && acc.1, p.2 ++ acc.2)) (true, [])

/-- One triggered check of `validate_row`: when the trigger fires the
result is overwritten with the false return of `_report_error` and the
error is emitted; otherwise nothing happens. -/
def trigPart (b : Bool) (e : List ValidationError) : Bool × List ValidationError :=
  (!b, if b then e else [])

/-- The `unique_key` block of `validate_row` (lines 278-287): `r` carries
the configuration, `r1` the accumulation state being threaded, `leak` the
current value of the leaked loop variable `column`. -/
def ukStep (r : SchemaRule) (row : Row) (r1 : SchemaRule) (leak : Option Column) :
    SchemaRule × Bool × List ValidationError :=
  match r.unique_key with
  | none => (r1, false, [])
  | some patterns =>
    let key := row.key patterns
    if r1.unique_key_map.contains key then
      (r1, true, [⟨"Duplicate row according to tag patterns "
        ++ pyListStr (patterns.map TagPattern.toStr), none, some row.rownum, leak, none⟩])
    else ({ r1 with unique_key_map := r1.unique_key_map ++ [key] }, false, [])

/-- The correlation block of `validate_row` (lines 289-300): record one
location for the first matching non-empty value. -/
def corrStep (r : SchemaRule) (row : Row) (r2 : SchemaRule) : SchemaRule :=
  match r.correlation_key with
  | none => r2
  | some patterns =>
    let key := row.key patterns
    match firstMatchingNonEmpty row r.tag_pattern with
    | none => r2
    | some cv =>
      let cm := corrInsert r2.correlation_map cv.1.display_tag (normalise cv.2) key
        (row.rownum, cv.1)
      { r2 with correlation_map := cm }

/-- The consistency block of `validate_row` (lines 302-312): record the
inferred type of every matching non-empty value. -/
def consStep (r : SchemaRule) (row : Row) (r3 : SchemaRule) : SchemaRule :=
  if r.consistent_datatypes then
    let nm := (row.columns.zip row.values).foldl (fun m cv =>
      if r.tag_pattern.matchesCol cv.1 && !is_empty cv.2 then
        consInsert m cv.1.display_tag (typeof cv.2) (row.rownum, cv.1, cv.2)
      else m) r3.consistency_map
    { r3 with consistency_map := nm }
  else r3

/-- Embedding of `SchemaRule.validate_row` (lines 217-314).  The Python
loop variable `column` leaks out of the `required` / `min_occur` /
`max_occur` lookup loops; `columnLeak` tracks the value it holds when the
`unique_key` error is reported. -/
def SchemaRule.validate_row (r : SchemaRule) (row : Row) :
    SchemaRule × Bool × List ValidationError :=
  let values := row.get_all r.tag_pattern
  let matchingCols := row.columns.filter (fun c => r.tag_pattern.matchesCol c)
  let column0 : Option Column := matchingCols.head?
  let lp := valuesLoop row r values 0
  let r1 := lp.1
  let resultV := lp.2.1
  let errsV := lp.2.2.1
  let number_seen := lp.2.2.2
  let reqTrig := r.required && number_seen < 1
  let reqErrs : List ValidationError :=
    [⟨"A value for " ++ r.tag_pattern.toStr ++ " was required.",
      none, some row.rownum, matchingCols.head?, none⟩]
  let minTrig := match r.min_occur with
    | some n => (number_seen : Int) < n
    | none => false
  let minErrs : List ValidationError :=
    [⟨"Expected at least " ++ optIntStr r.min_occur ++ " instance(s) but found "
        ++ toString number_seen, none, some row.rownum, matchingCols.getLast?, none⟩]
  let maxTrig := match r.max_occur with
    | some n => (number_seen : Int) > n
    | none => false
  let maxErrs : List ValidationError :=
    [⟨"Expected at most " ++ optIntStr r.max_occur ++ " instance(s) but found "
        ++ toString number_seen, none, some row.rownum, matchingCols.getLast?, none⟩]
  let leak1 := if reqTrig then
      (match matchingCols.head? with
       | some c => some c
       | none => if row.columns.isEmpty then column0 else row.columns.getLast?)
    else column0
  let leak2 := if minTrig then
      (if row.columns.isEmpty then leak1 else row.columns.getLast?) else leak1
  let leak3 := if maxTrig then
      (if row.columns.isEmpty then leak2 else row.columns.getLast?) else leak2
  let uk := ukStep r row r1 leak3
  let r4 := consStep r row (corrStep r row uk.1)
  let parts := [(resultV, errsV), trigPart reqTrig reqErrs, trigPart minTrig minErrs,
    trigPart maxTrig maxErrs, (!uk.2.1, uk.2.2)]
  (r4, (andConcat parts).1, (andConcat parts).2)

/-- Embedding of `SchemaRule._finish_correlations` (lines 119-172): for
each hashtag and key, compute the most common value; then flag every
VALUE that was recorded under more than one distinct correlation key,
reporting all but the most common key group for that value, with the
expected value for the flagged key as the suggestion unless it equals the
flagged value itself. -/
def SchemaRule.finish_correlations (r : SchemaRule) : Bool × List ValidationError :=
  let m := r.correlation_map
  if m.isEmpty then (true, [])
  else
    let expected : List (String × List (List String × String)) :=
      m.map (fun hv =>
        let counts : List (List String × List (String × Nat)) :=
          hv.2.foldl (fun acc vk =>
            vk.2.foldl (fun acc2 kl =>
              alUpd acc2 kl.1 [] (fun vm => alUpd vm vk.1 0 (fun n => n + kl.2.length))) acc) []
        (hv.1, counts.map (fun kc =>
          (kc.1, ((sortDescBy (fun a b => a.2 < b.2) kc.2).headD ("", 0)).1))))
    andConcat (m.map (fun hv =>
      andConcat (hv.2.map (fun vk =>
        if vk.2.length > 1 then
          let key_locations := sortDescBy (fun a b =>
            (a.2.length < b.2.length)
              || (a.2.length = b.2.length && listStrLt a.1 b.1)) vk.2
          (false, ((key_locations.drop 1).map (fun kl =>
            let sugg0 := (alGet ((alGet expected hv.1).getD []) kl.1).getD ""
            let sugg := if vk.1 = sugg0 then none else some sugg0
            kl.2.map (fun loc =>
              ⟨"wrong value for related column(s) "
                  ++ strJoin ", " ((r.correlation_key.getD []).map TagPattern.toStr),
                some vk.1, some loc.1, some loc.2, sugg⟩))).flatten)
        else (true, [])))))

/-- Embedding of `SchemaRule._finish_consistency` (lines 174-194): ranks
the inferred types of each hashtag by occurrence count (a stable
descending sort, like Python `sorted(..., reverse=True)`) and reports
every entry of every type except the top-ranked one.  On an empty map the
Python function falls through a bare `return`, yielding `None`; the
`Option Bool` result captures that. -/
def SchemaRule.finish_consistency (r : SchemaRule) : Option Bool × List ValidationError :=
  let m := r.consistency_map
  if m.isEmpty then (none, [])
  else
    let res := andConcat (m.map (fun ht =>
      let types_found := sortDescBy (fun a b => a.2.length < b.2.length) ht.2
      if types_found.length > 1 then
        (false, ((types_found.drop 1).map (fun td =>
          td.2.map (fun entry =>
            ⟨"inconsistent datatype " ++ td.1 ++ " (expected "
                ++ (types_found.headD ("", [])).1 ++ ")",
              some entry.2.2, some entry.1, some entry.2.1, none⟩))).flatten)
      else (true, [])))
    (some res.1, res.2)

/-- Embedding of `SchemaRule.finish` (lines 110-117): correlations are
always checked; the consistency check runs only when
`consistent_datatypes` is set, and its `None` result on an empty map is
falsy (making `finish` return false without reporting anything). -/
def SchemaRule.finish (r : SchemaRule) : Bool × List ValidationError :=
  let c := r.finish_correlations
  if r.consistent_datatypes then
    let cs := r.finish_consistency
    let falsy := match cs.1 with
      | none => true
      | some b => !b
    (c.1 && !falsy, c.2 ++ cs.2)
  else (c.1, c.2)

/-! ## Schema orchestration (validation.py lines 451-509) -/

structure Schema where
  rules : List SchemaRule

/-- A dataset: the header columns plus the streamed rows. -/
structure Dataset where
  columns : List Column
  rows : List Row

/-- Embedding of `Schema.validate_columns` (lines 476-486): every rule
checks the header; failing rules are marked impossible. -/
def Schema.validate_columns (s : Schema) (columns : List Column) :
    Bool × List ValidationError × List (SchemaRule × Bool) :=
  let results := s.rules.map (fun r => (r, r.validate_columns columns))
  (results.all (fun p => p.2.1), (results.map (fun p => p.2.2)).flatten,
    results.map (fun p => (p.1, !p.2.1)))

/-- One row through every rule (lines 488-498), skipping impossible
rules and threading each rule's accumulation state. -/
def rowPhaseStep (row : Row) : List (SchemaRule × Bool) →
    List (SchemaRule × Bool) × Bool × List ValidationError
  | [] => ([], true, [])
  | (r, imp) :: rest =>
    let t := if imp then (r, true, ([] : List ValidationError)) else r.validate_row row
    let rest2 := rowPhaseStep row rest
    ((t.1, imp) :: rest2.1, t.2.1 && rest2.2.1, t.2.2 ++ rest2.2.2)

def rowPhase : List Row → List (SchemaRule × Bool) →
    List (SchemaRule × Bool) × Bool × List ValidationError
  | [], rs => (rs, true, [])
  | row :: rows, rs =>
    let t := rowPhaseStep row rs
    let rest := rowPhase rows t.1
    (rest.1, t.2.1 && rest.2.1, t.2.2 ++ rest.2.2)

/-- Embedding of `Schema.validate_dataset` (lines 500-509): `finish` on
every rule, impossible or not. -/
def datasetPhase (rs : List (SchemaRule × Bool)) : Bool × List ValidationError :=
  andConcat (rs.map (fun p => p.1.finish))

/-- Embedding of `Schema.validate` (lines 465-474): column phase, row
phase over the streamed rows, then the finalize phase; the result is the
conjunction and the reported errors are concatenated in phase order. -/
def Schema.validate (s : Schema) (source : Dataset) : Bool × List ValidationError :=
  let c := s.validate_columns source.columns
  let rp := rowPhase source.rows c.2.2
  let d := datasetPhase rp.1
  (c.1 && rp.2.1 && d.1, c.2.1 ++ rp.2.2 ++ d.2)

/-! ## Soundness of the reporting discipline: a phase that returns true
has reported nothing.  (The converse fails; see the C2 results.) -/

theorem test_type_sound (r : SchemaRule) (value : String) (rn : Option Nat)
    (col : Option Column) (raw : String) :
    (r.test_type value rn col raw).1 = true → (r.test_type value rn col raw).2 = [] := by
  unfold SchemaRule.test_type
  repeat' split
  all_goals simp

theorem test_range_sound (r : SchemaRule) (value : String) (rn : Option Nat)
    (col : Option Column) (raw : String) :
    (r.test_range value rn col raw).1 = true → (r.test_range value rn col raw).2 = [] := by
  unfold SchemaRule.test_range
  repeat' split
  all_goals simp_all

theorem test_pattern_sound (r : SchemaRule) (value : String) (rn : Option Nat)
    (col : Option Column) (raw : String) :
    (r.test_pattern value rn col raw).1 = true → (r.test_pattern value rn col raw).2 = [] := by
  unfold SchemaRule.test_pattern
  repeat' split
  all_goals simp

theorem test_enumeration_sound (r : SchemaRule) (value : String) (rn : Option Nat)
    (col : Option Column) (raw : String) :
    (r.test_enumeration value rn col raw).1 = true →
      (r.test_enumeration value rn col raw).2 = [] := by
  unfold SchemaRule.test_enumeration
  repeat' split
  all_goals simp

theorem test_unique_sound (r : SchemaRule) (value : String) (rn : Option Nat)
    (col : Option Column) (raw : String) :
    (r.test_unique value rn col raw).2.1 = true → (r.test_unique value rn col raw).2.2 = [] := by
  simp only [SchemaRule.test_unique]
  repeat' split
  all_goals simp

theorem validate_sound (r : SchemaRule) (raw : String) (rn : Option Nat)
    (col : Option Column) :
    (r.validate raw rn col).2.1 = true → (r.validate raw rn col).2.2 = [] := by
  simp only [SchemaRule.validate]
  split
  · simp
  · intro h
    simp only [Bool.and_eq_true] at h
    obtain ⟨⟨⟨⟨h1, h2⟩, h3⟩, h4⟩, h5⟩ := h
    rw [test_type_sound _ _ _ _ _ h1, test_range_sound _ _ _ _ _ h2,
      test_pattern_sound _ _ _ _ _ h3, test_enumeration_sound _ _ _ _ _ h4,
      test_unique_sound _ _ _ _ _ h5]
    rfl

theorem valuesLoop_sound (row : Row) (values : List String) : ∀ (r : SchemaRule) (i : Nat),
    (valuesLoop row r values i).2.1 = true → (valuesLoop row r values i).2.2.1 = [] := by
  induction values with
  | nil => intro r i _; rfl
  | cons v vs ih =>
    intro r i h
    simp only [valuesLoop, Bool.and_eq_true] at h ⊢
    obtain ⟨h1, h2⟩ := h
    rw [validate_sound _ _ _ _ h1, ih _ _ h2]
    rfl

theorem validate_columns_sound (r : SchemaRule) (columns : List Column) :
    (r.validate_columns columns).1 = true → (r.validate_columns columns).2 = [] := by
  simp only [SchemaRule.validate_columns]
  repeat' split
  all_goals simp

theorem andConcat_cons (p : Bool × List ValidationError) (l : List (Bool × List ValidationError)) :
    andConcat (p :: l) = (p.1 && (andConcat l).1, p.2 ++ (andConcat l).2) := rfl

theorem andConcat_sound (l : List (Bool × List ValidationError))
    (h : ∀ p ∈ l, p.1 = true → p.2 = []) :
    (andConcat l).1 = true → (andConcat l).2 = [] := by
  induction l with
  | nil => intro _; rfl
  | cons p rest ih =>
    intro hh
    rw [andConcat_cons] at hh ⊢
    simp only [Bool.and_eq_true] at hh
    rw [h p (by simp) hh.1, ih (fun q hq => h q (by simp [hq])) hh.2]
    rfl

theorem finish_correlations_sound (r : SchemaRule) :
    (r.finish_correlations).1 = true → (r.finish_correlations).2 = [] := by
  simp only [SchemaRule.finish_correlations]
  split
  · intro _; rfl
  · apply andConcat_sound
    intro p hp
    simp only [List.mem_map] at hp
    obtain ⟨hv, _, rfl⟩ := hp
    apply andConcat_sound
    intro q hq
    simp only [List.mem_map] at hq
    obtain ⟨vk, _, rfl⟩ := hq
    split
    · simp
    · simp

theorem finish_consistency_sound (r : SchemaRule) :
    (r.finish_consistency).1 = some true → (r.finish_consistency).2 = [] := by
  simp only [SchemaRule.finish_consistency]
  split
  · intro _; rfl
  · intro h
    simp only [Option.some.injEq] at h
    apply andConcat_sound _ _ h
    intro p hp
    simp only [List.mem_map] at hp
    obtain ⟨ht, _, rfl⟩ := hp
    split
    · simp
    · simp

theorem finish_sound (r : SchemaRule) :
    (r.finish).1 = true → (r.finish).2 = [] := by
  simp only [SchemaRule.finish]
  split
  · intro h
    simp only [Bool.and_eq_true] at h
    obtain ⟨h1, h2⟩ := h
    rw [finish_correlations_sound r h1]
    have h3 : (r.finish_consistency).1 = some true := by
      rcases hcs : (r.finish_consistency).1 with _ | b
      · rw [hcs] at h2; simp at h2
      · rw [hcs] at h2
        cases b
        · simp at h2
        · rfl
    rw [finish_consistency_sound r h3]
    rfl
  · intro h
    rw [finish_correlations_sound r h]

theorem schema_validate_columns_sound (s : Schema) (columns : List Column) :
    (s.validate_columns columns).1 = true → (s.validate_columns columns).2.1 = [] := by
  simp only [Schema.validate_columns]
  intro h
  simp only [List.all_eq_true] at h
  rw [List.flatten_eq_nil_iff]
  rintro e he
  obtain ⟨p, hp, rfl⟩ := List.mem_map.mp he
  obtain ⟨rl, hrl, rfl⟩ := List.mem_map.mp hp
  exact validate_columns_sound rl columns
    (h _ (List.mem_map.mpr ⟨rl, hrl, rfl⟩))

theorem ukStep_sound (r : SchemaRule) (row : Row) (r1 : SchemaRule) (leak : Option Column) :
    (ukStep r row r1 leak).2.1 = false → (ukStep r row r1 leak).2.2 = [] := by
  simp only [ukStep]
  repeat' split
  all_goals simp

theorem trigPart_sound (b : Bool) (e : List ValidationError) :
    (trigPart b e).1 = true → (trigPart b e).2 = [] := by
  cases b <;> simp [trigPart]

theorem validate_row_sound (r : SchemaRule) (row : Row) :
    (r.validate_row row).2.1 = true → (r.validate_row row).2.2 = [] := by
  simp only [SchemaRule.validate_row]
  apply andConcat_sound
  intro p hp
  simp only [List.mem_cons, List.not_mem_nil, or_false] at hp
  rcases hp with rfl | rfl | rfl | rfl | rfl
  · exact valuesLoop_sound row _ _ _
  · exact trigPart_sound _ _
  · exact trigPart_sound _ _
  · exact trigPart_sound _ _
  · intro h
    simp only [Bool.not_eq_true'] at h
    exact ukStep_sound _ _ _ _ h

theorem rowPhaseStep_sound (row : Row) (rs : List (SchemaRule × Bool)) :
    (rowPhaseStep row rs).2.1 = true → (rowPhaseStep row rs).2.2 = [] := by
  induction rs with
  | nil => intro _; rfl
  | cons p rest ih =>
    obtain ⟨r, imp⟩ := p
    intro h
    simp only [rowPhaseStep, Bool.and_eq_true] at h ⊢
    obtain ⟨h1, h2⟩ := h
    rw [ih h2]
    cases imp
    · simp only [Bool.false_eq_true, if_false] at h1 ⊢
      rw [validate_row_sound r row h1]
      rfl
    · simp

theorem rowPhase_sound (rows : List Row) : ∀ rs : List (SchemaRule × Bool),
    (rowPhase rows rs).2.1 = true → (rowPhase rows rs).2.2 = [] := by
  induction rows with
  | nil => intro rs _; rfl
  | cons row rows ih =>
    intro rs h
    simp only [rowPhase, Bool.and_eq_true] at h ⊢
    obtain ⟨h1, h2⟩ := h
    rw [rowPhaseStep_sound row rs h1, ih _ h2]
    rfl

theorem datasetPhase_sound (rs : List (SchemaRule × Bool)) :
    (datasetPhase rs).1 = true → (datasetPhase rs).2 = [] := by
  apply andConcat_sound
  intro p hp
  simp only [List.mem_map] at hp
  obtain ⟨q, _, rfl⟩ := hp
  exact finish_sound q.1

theorem schema_validate_sound (s : Schema) (source : Dataset) :
    (s.validate source).1 = true → (s.validate source).2 = [] := by
  simp only [Schema.validate]
  intro h
  simp only [Bool.and_eq_true] at h
  obtain ⟨⟨h1, h2⟩, h3⟩ := h
  rw [schema_validate_columns_sound s source.columns h1,
    rowPhase_sound source.rows _ h2, datasetPhase_sound _ h3]
  rfl

/-! ## Accumulation-map growth (claim C9) -/

/-- Sum of a measure over the values of an association list. -/
def sumBy {α β : Type} (μ : β → Nat) (m : List (α × β)) : Nat :=
  (m.map (fun p => μ p.2)).sum

theorem sumBy_alUpd {α β : Type} [DecidableEq α] (μ : β → Nat) (m : List (α × β))
    (k : α) (d : β) (f : β → β) (hf : ∀ x, μ (f x) = μ x + 1) (hd : μ d = 0) :
    sumBy μ (alUpd m k d f) = sumBy μ m + 1 := by
  induction m with
  | nil => simp [alUpd, sumBy, hf, hd]
  | cons p rest ih =>
    obtain ⟨k2, v2⟩ := p
    by_cases hk : k2 = k
    · simp only [alUpd, if_pos hk, sumBy, List.map_cons, List.sum_cons, hf]
      omega
    · simp only [alUpd, if_neg hk, sumBy, List.map_cons, List.sum_cons] at ih ⊢
      omega

/-- Total number of locations stored in a correlation map. -/
def corrTotal (m : CorrMap) : Nat :=
  sumBy (sumBy (sumBy List.length)) m

/-- Total number of entries stored in a consistency map. -/
def consTotal (m : ConsMap) : Nat :=
  sumBy (sumBy List.length) m

theorem corrInsert_total (m : CorrMap) (hashtag value : String) (key : List String)
    (loc : CorrLoc) : corrTotal (corrInsert m hashtag value key loc) = corrTotal m + 1 := by
  unfold corrTotal corrInsert
  apply sumBy_alUpd
  · intro x
    apply sumBy_alUpd
    · intro y
      apply sumBy_alUpd
      · intro z; simp
      · rfl
    · rfl
  · rfl

theorem validate_preserves_maps (r : SchemaRule) (raw : String) (rn : Option Nat)
    (col : Option Column) :
    (r.validate raw rn col).1.unique_key_map = r.unique_key_map ∧
      (r.validate raw rn col).1.correlation_map = r.correlation_map := by
  simp only [SchemaRule.validate, SchemaRule.test_unique]
  repeat' split
  all_goals simp

theorem valuesLoop_preserves_maps (row : Row) (values : List String) :
    ∀ (r : SchemaRule) (i : Nat),
      (valuesLoop row r values i).1.unique_key_map = r.unique_key_map ∧
        (valuesLoop row r values i).1.correlation_map = r.correlation_map := by
  induction values with
  | nil => intro r i; exact ⟨rfl, rfl⟩
  | cons v vs ih =>
    intro r i
    simp only [valuesLoop]
    constructor
    · rw [(ih _ _).1, (validate_preserves_maps r v _ _).1]
    · rw [(ih _ _).2, (validate_preserves_maps r v _ _).2]

theorem ukStep_ukm_le (r : SchemaRule) (row : Row) (r1 : SchemaRule) (leak : Option Column) :
    (ukStep r row r1 leak).1.unique_key_map.length ≤ r1.unique_key_map.length + 1 := by
  simp only [ukStep]
  repeat' split
  all_goals simp

theorem ukStep_corr (r : SchemaRule) (row : Row) (r1 : SchemaRule) (leak : Option Column) :
    (ukStep r row r1 leak).1.correlation_map = r1.correlation_map := by
  simp only [ukStep]
  repeat' split
  all_goals simp

theorem corrStep_ukm (r : SchemaRule) (row : Row) (r2 : SchemaRule) :
    (corrStep r row r2).unique_key_map = r2.unique_key_map := by
  simp only [corrStep]
  repeat' split
  all_goals simp

theorem corrStep_corr_le (r : SchemaRule) (row : Row) (r2 : SchemaRule) :
    corrTotal (corrStep r row r2).correlation_map ≤ corrTotal r2.correlation_map + 1 := by
  simp only [corrStep]
  repeat' split
  all_goals simp [corrInsert_total]

theorem consStep_ukm (r : SchemaRule) (row : Row) (r3 : SchemaRule) :
    (consStep r row r3).unique_key_map = r3.unique_key_map := by
  simp only [consStep]
  split
  all_goals simp

theorem consStep_corr (r : SchemaRule) (row : Row) (r3 : SchemaRule) :
    (consStep r row r3).correlation_map = r3.correlation_map := by
  simp only [consStep]
  split
  all_goals simp

theorem validate_row_unique_key_gain (r : SchemaRule) (row : Row) :
    (r.validate_row row).1.unique_key_map.length ≤ r.unique_key_map.length + 1 := by
  simp only [SchemaRule.validate_row]
  rw [consStep_ukm, corrStep_ukm]
  calc (ukStep r row (valuesLoop row r (row.get_all r.tag_pattern) 0).1 _).1.unique_key_map.length
      ≤ (valuesLoop row r (row.get_all r.tag_pattern) 0).1.unique_key_map.length + 1 :=
        ukStep_ukm_le _ _ _ _
    _ = r.unique_key_map.length + 1 := by
        rw [(valuesLoop_preserves_maps row (row.get_all r.tag_pattern) r 0).1]

theorem validate_row_correlation_gain (r : SchemaRule) (row : Row) :
    corrTotal (r.validate_row row).1.correlation_map ≤ corrTotal r.correlation_map + 1 := by
  simp only [SchemaRule.validate_row]
  rw [consStep_corr]
  calc corrTotal (corrStep r row
          (ukStep r row (valuesLoop row r (row.get_all r.tag_pattern) 0).1 _).1).correlation_map
      ≤ corrTotal (ukStep r row (valuesLoop row r (row.get_all r.tag_pattern) 0).1
          _).1.correlation_map + 1 := corrStep_corr_le _ _ _
    _ = corrTotal r.correlation_map + 1 := by
        rw [ukStep_corr, (valuesLoop_preserves_maps row (row.get_all r.tag_pattern) r 0).2]

/-! ## Schema parsing (validation.py lines 521-621) -/

def DATATYPES : List String := ["text", "number", "url", "email", "phone", "date"]

/-- Modelled from the spec: `hxl.model.Row.get(tag)`: the value of the
first column matching the parsed pattern, `None` when no column matches. -/
def Row.get (row : Row) (tag : String) : Option String :=
  ((row.columns.zip row.values).find? (fun cv => (TagPattern.parse tag).matchesCol cv.1)).map (·.2)

/-- Modelled from the spec: Python `int(s)` (optional sign, decimal
digits, surrounding whitespace). -/
def parse_int (s : String) : Option Int :=
  let t := trimChars s.data
  let sg : Int := if t.headD ' ' = '-' then -1 else 1
  let t2 := if t.headD ' ' = '-' || t.headD ' ' = '+' then t.drop 1 else t
  if !t2.isEmpty && t2.all Char.isDigit then some (sg * (digitsToNat t2 : Int)) else none

/-- Embedding of the parser helper `to_int` (lines 559-563): falsy cells
give `None`; a non-integer cell raises `ValueError`. -/
def to_int : Option String → Except String (Option Int)
  | none => .ok none
  | some s =>
    if s = "" then .ok none
    else match parse_int s with
      | some n => .ok (some n)
      | none => .error ("invalid literal for int: " ++ s)

/-- Embedding of the parser helper `to_float` (lines 565-569). -/
def to_float : Option String → Except String (Option Rat)
  | none => .ok none
  | some s =>
    if s = "" then .ok none
    else match parse_float s with
      | some q => .ok (some q)
      | none => .error ("could not convert string to float: " ++ s)

/-- Embedding of the parser helper `to_boolean` (lines 571-577): falsy or
a recognised false word gives false, a recognised true word gives true,
anything else raises. -/
def to_boolean : Option String → Except String Bool
  | none => .ok false
  | some s =>
    if s = "" then .ok false
    else if ["0", "n", "no", "f", "false"].contains (strLower s) then .ok false
    else if ["y", "yes", "t", "true"].contains (strLower s) then .ok true
    else .error ("Unrecognised true/false value: " ++ s)

/-- The normalisation inside `parse_type` (lines 550-553): lowercase,
then strip every character outside `[a-z_-]`. -/
def parse_type_norm (t : String) : String :=
  String.mk ((strLower t).data.filter (fun c => (('a' ≤ c) && (c ≤ 'z')) || c = '_' || c = '-'))

/-- Embedding of the parser helper `parse_type` (lines 550-557): an
unrecognised datatype name is silently mapped to `None` (no datatype
constraint); nothing is raised. -/
def parse_type : Option String → Option String
  | none => none
  | some t =>
    let t2 := if t = "" then t else parse_type_norm t
    if DATATYPES.contains t2 then some t2 else none

/-- Embedding of the parser helper `to_regex` (lines 580-584), compiling
through `compileRegex`. -/
def to_regex : Option String → Option PyRegex
  | none => none
  | some s => if s = "" then none else some (compileRegex s)

/-- Embedding of `re.split(r"\s*\|\s*", s)` for `#valid_value+list`
(line 608): the whitespace adjacent to each pipe is consumed, the outer
ends are untouched. -/
def splitEnum (s : String) : List String :=
  let pieces := splitOnChar '|' s.data
  let n := pieces.length
  if n ≤ 1 then pieces.map String.mk
  else (pieces.mapIdx (fun i p =>
    if i = 0 then (p.reverse.dropWhile Char.isWhitespace).reverse
    else if i = n - 1 then p.dropWhile Char.isWhitespace
    else trimChars p)).map String.mk

/-- Python `dict` assignment on an insertion-ordered association list. -/
def alSet {α β : Type} [DecidableEq α] : List (α × β) → α → β → List (α × β)
  | [], k, v => [(k, v)]
  | (k2, v2) :: rest, k, v =>
    if k2 = k then (k2, v) :: rest else (k2, v2) :: alSet rest k v

/-- The enum lookup map built by `SchemaRule.init` (lines 90-96): keys are
the space-collapsed (and, unless `case_sensitive`, lowercased) values,
mapping back to the original value; later duplicates overwrite. -/
def buildEnumMap (case_sensitive : Bool) (enum : List String) : List (String × String) :=
  enum.foldl (fun m value =>
    alSet m (if case_sensitive then normalise_space value else normalise_string value) value) []

/-- Embedding of `SchemaRule.init` (lines 86-104) applied to a rule whose
`unique_key` and `correlation_key` are still raw strings: build the enum
map, parse the key strings, and append the rule's own tag pattern to the
unique key. -/
def ruleInit (r : SchemaRule) (unique_key_raw correlation_key_raw : Option String) :
    SchemaRule :=
  let em := match r.enum with
    | some l => if l.isEmpty then r.enum_map else buildEnumMap r.case_sensitive l
    | none => r.enum_map
  let uk := match unique_key_raw with
    | some s => if s = "" then none else some (TagPattern.parse_list s ++ [r.tag_pattern])
    | none => none
  let ck := match correlation_key_raw with
    | some s => if s = "" then none else some (TagPattern.parse_list s)
    | none => none
  { r with enum_map := em, unique_key := uk, correlation_key := ck }

/-- Embedding of the per-row body of `Schema.parse` (lines 586-619).
`oracle` stands for the external dataset fetch of the
`#valid_value+url` branch (an I/O operation outside the embedded code);
rows without `#valid_tag` build no rule; conversion failures abort the
whole parse. -/
def parseRule (oracle : String → Option String → List String) (row : Row) :
    Except String (Option SchemaRule) :=
  match row.get "#valid_tag" with
  | none => .ok none
  | some tag =>
    if tag = "" then .ok none
    else do
      let minOcc ← to_int (row.get "#valid_required+min")
      let maxOcc ← to_int (row.get "#valid_required+max")
      let dataType := parse_type (row.get "#valid_datatype-consistent")
      let minVal ← to_float (row.get "#valid_value+min")
      let maxVal ← to_float (row.get "#valid_value+max")
      let rx := to_regex (row.get "#valid_value+regex")
      let required ← to_boolean (row.get "#valid_required-min-max")
      let uniq ← to_boolean (row.get "#valid_unique-key")
      let sev := match row.get "#valid_severity" with
        | some s => if s = "" then "error" else s
        | none => "error"
      let caseSensitive ← to_boolean (row.get "#valid_value+case")
      let consistentDatatypes ← to_boolean (row.get "#valid_datatype+consistent")
      let urlBranch : Option (List String) := match row.get "#valid_value+url" with
        | some u => if u = "" then none else some (oracle u (row.get "#valid_value+target_tag"))
        | none => none
      let enum : Option (List String) := match row.get "#valid_value+list" with
        | some s => if s = "" then urlBranch else some (splitEnum s)
        | none => urlBranch
      let pre : SchemaRule :=
        { tag_pattern := TagPattern.parse tag,
          min_occur := minOcc,
          max_occur := maxOcc,
          data_type := dataType,
          min_value := minVal,
          max_value := maxVal,
          regex := rx,
          required := required,
          unique := uniq,
          severity := sev,
          description := row.get "#description",
          case_sensitive := caseSensitive,
          consistent_datatypes := consistentDatatypes,
          enum := enum }
      .ok (some (ruleInit pre (row.get "#valid_unique+key") (row.get "#valid_correlation")))

/-- Embedding of the main loop of `Schema.parse`: fold the schema rows,
appending one rule per row that carries `#valid_tag`, aborting on the
first conversion failure. -/
def Schema.parse (oracle : String → Option String → List String) (rows : List Row) :
    Except String Schema :=
  rows.foldlM (fun sch row => do
    match ← parseRule oracle row with
    | some r => pure ⟨sch.rules ++ [r]⟩
    | none => pure sch) ⟨[]⟩

/-! ## Concrete instances used by the claims -/

def adm1NameCol : Column := ⟨"#adm1", ["name"], "#adm1+name"⟩

def adm1CodeCol : Column := ⟨"#adm1", ["code"], "#adm1+code"⟩

def affectedCol : Column := ⟨"#affected", [], "#affected"⟩

def xCol : Column := ⟨"#x", [], "#x"⟩

def xyCol : Column := ⟨"#x", ["y"], "#x+y"⟩

/-- The C1 rule: validate `#adm1+code` with `correlation_key=['#adm1']`. -/
def corrRule : SchemaRule :=
  { tag_pattern := TagPattern.parse "#adm1+code",
    correlation_key := some (TagPattern.parse_list "#adm1") }

def corrRow (n : Nat) (name code : String) : Row :=
  ⟨n, [adm1NameCol, adm1CodeCol], [name, code]⟩

/-- The rule state after streaming `(Coast,001),(Coast,001),(Coast,002)`. -/
def corrAfterRows : SchemaRule :=
  (((corrRule.validate_row (corrRow 1 "Coast" "001")).1.validate_row
      (corrRow 2 "Coast" "001")).1.validate_row (corrRow 3 "Coast" "002")).1

/-- The C7 rule: `consistent_datatypes=true` over `#affected`. -/
def consRule : SchemaRule :=
  { tag_pattern := TagPattern.parse "#affected",
    consistent_datatypes := true }

def consRow (n : Nat) (v : String) : Row := ⟨n, [affectedCol], [v]⟩

/-- The rule state after streaming the values `"200"`, `"abc"`, `"300"`. -/
def consAfterRows : SchemaRule :=
  (((consRule.validate_row (consRow 1 "200")).1.validate_row
      (consRow 2 "abc")).1.validate_row (consRow 3 "300")).1

/-- A case-sensitive rule with the literal regex `a`. -/
def regexRuleCS : SchemaRule :=
  { tag_pattern := TagPattern.parse "#x",
    regex := some (compileRegex "a"),
    case_sensitive := true }

/-- A case-insensitive rule with the literal regex `A`. -/
def regexRuleCI : SchemaRule :=
  { tag_pattern := TagPattern.parse "#x",
    regex := some (compileRegex "A"),
    case_sensitive := false }

/-- A rule with a numeric range but no datatype constraint. -/
def rangeRule : SchemaRule :=
  { tag_pattern := TagPattern.parse "#x",
    min_value := some 0 }

/-- One row whose `#x` value is not numeric. -/
def rangeDataset : Dataset := ⟨[xCol], [⟨1, [xCol], ["abc"]⟩]⟩

/-- A required rule, to be run against a dataset with no columns. -/
def reqRule : SchemaRule :=
  { tag_pattern := TagPattern.parse "#x",
    required := true }

def emptyDataset : Dataset := ⟨[], []⟩

/-- A rule exercising all four accumulation maps at once. -/
def twoColRule : SchemaRule :=
  { tag_pattern := TagPattern.parse "#x",
    unique := true,
    consistent_datatypes := true,
    unique_key := some [TagPattern.parse "#x"],
    correlation_key := some [TagPattern.parse "#x"] }

/-- A row with TWO columns matching `#x`, carrying distinct values. -/
def twoColRow : Row := ⟨1, [xCol, xyCol], ["1", "2"]⟩

def numRule : SchemaRule :=
  { tag_pattern := TagPattern.parse "#x",
    data_type := some "number" }

def validTagCol : Column := ⟨"#valid_tag", [], "#valid_tag"⟩

def validDatatypeCol : Column := ⟨"#valid_datatype", [], "#valid_datatype"⟩

def validRequiredCol : Column := ⟨"#valid_required", [], "#valid_required"⟩

/-- The trivial stand-in for the external `#valid_value+url` fetch. -/
def oracle0 : String → Option String → List String := fun _ _ => []

/-- A schema row declaring an unrecognised datatype name. -/
def badDatatypeRow : Row := ⟨1, [validTagCol, validDatatypeCol], ["#x", "integer"]⟩

/-- A schema row with a malformed boolean in `#valid_required-min-max`. -/
def badBoolRow : Row := ⟨1, [validTagCol, validRequiredCol], ["#x", "maybe"]⟩

deriving instance DecidableEq for Except

/-! ## The claims -/

/-- C1: the claim states that for a SchemaRule over `#adm1+code` with
`correlation_key=['#adm1']`, after `validate_row` on the rows
`(Coast,001),(Coast,001),(Coast,002)` and one `finish()`, exactly one
correlation error is reported, at the `(Coast,002)` row, suggesting
`001`.  The code does the opposite: `_finish_correlations` groups the map
as hashtag → value → key and only flags a VALUE recorded under more than
one correlation key, so in this example (one key per value) `finish()`
returns true and reports nothing, although the correlation map was
populated and every row validated cleanly.  This contradicts the source's
own comment ("if there's more than one value found matching the
correlation key, assume an error"). -/
theorem C1_correlation_example_reports_nothing :
    corrAfterRows.finish = (true, []) ∧
    (corrRule.validate_row (corrRow 1 "Coast" "001")).2 = (true, []) ∧
    ((corrRule.validate_row (corrRow 1 "Coast" "001")).1.validate_row
        (corrRow 2 "Coast" "001")).2 = (true, []) ∧
    ((((corrRule.validate_row (corrRow 1 "Coast" "001")).1.validate_row
        (corrRow 2 "Coast" "001")).1).validate_row (corrRow 3 "Coast" "002")).2 = (true, []) ∧
    corrAfterRows.correlation_map ≠ [] := by
  decide

/-- C2 counterexample: the claim is an if-and-only-if; here
`Schema.validate` returns false although no error at all was reported
through the callback — the rule has `min_value=0` and the value `"abc"`
makes `float(value)` raise, which `_test_range` catches by setting the
result false without reporting. -/
theorem C2_counterexample :
    Schema.validate ⟨[rangeRule]⟩ rangeDataset = (false, []) := by
  decide

/-- C2 amended: one direction of the claim holds — whenever at least one
validation error is reported through the callback during the run (column
phase, row phase, or finalize phase), `Schema.validate` returns false;
equivalently a run returning true has reported nothing. -/
theorem C2_amended (s : Schema) (source : Dataset)
    (h : (s.validate source).2 ≠ []) : (s.validate source).1 = false := by
  cases hb : (s.validate source).1
  · rfl
  · exact absurd (schema_validate_sound s source hb) h

/-- C2 witness: a required rule against a dataset with no columns reports
an error, and validate indeed returns false. -/
theorem C2_amended_witness :
    (Schema.validate ⟨[reqRule]⟩ emptyDataset).2 ≠ [] ∧
    (Schema.validate ⟨[reqRule]⟩ emptyDataset).1 = false :=
  ⟨by decide, C2_amended ⟨[reqRule]⟩ emptyDataset (by decide)⟩

/-- C3: the claim states that `case_sensitive=true` gives a
case-sensitive regex match and `case_sensitive=false` a case-insensitive
one.  `_test_pattern` sets `flags = re.IGNORECASE` exactly WHEN
`case_sensitive` is true, so the behaviour is inverted: with
`case_sensitive=true` the value `A` matches the pattern `a`
case-insensitively and no error is reported (the claim expects an
error), while with `case_sensitive=false` the value `A` is lowercased
and matched with no flags against the pattern `A`, which fails and
reports an error (the claim expects a match).  The field name and the
spec agree that this is a slip in the code. -/
theorem C3_pattern_case_flag_inverted :
    (regexRuleCS.validate "A" (some 1) (some xCol)).2 = (true, []) ∧
    (regexRuleCI.validate "A" (some 1) (some xCol)).2.1 = false ∧
    (regexRuleCI.validate "A" (some 1) (some xCol)).2.2.map (fun e => e.message) =
      ["Failed to match pattern A"] := by
  decide

/-- C4 counterexample: the claim says that among candidates tied at the
minimal edit distance the function returns one with the longest common
prefix.  With `s="ab"` and candidates `["ax","abz"]`, both are within
the cutoff at distance 1, but the true longest-common-prefix lengths are
1 and 2, and the function returns `"ax"`: the tie-break uses
`get_common_prefix_len`, whose scan undercounts by one when one string
is a prefix of the other (see C5), so `"abz"` scores 1, not 2. -/
theorem C4_counterexample :
    find_closest_match "ab" ["ax", "abz"] = some "ax" ∧
    get_edit_distance "ab" "ax" = 1 ∧
    get_edit_distance "ab" "abz" = 1 ∧
    2 * get_edit_distance "ab" "abz" ≤ "ab".length ∧
    spec_common_prefix_len "ab".data "ax".data = 1 ∧
    spec_common_prefix_len "ab".data "abz".data = 2 := by
  decide

/-- C4 amended: `find_closest_match(s, candidates)` returns none exactly
when every candidate's edit distance to `s` exceeds `len(s)/2` (real
division: `len(s) < 2*distance`); otherwise it returns a candidate
within the cutoff of minimal edit distance, and among candidates tied at
that distance one maximising `get_common_prefix_len` (the source's
scan-based prefix length, which is one less than the true
longest-common-prefix length when one string is a non-empty prefix of
the other). -/
theorem C4_amended (s : String) (cands : List String) :
    (find_closest_match s cands = none ↔
      ∀ c ∈ cands, s.length < 2 * get_edit_distance s c)
    ∧ ∀ m, find_closest_match s cands = some m →
        m ∈ cands ∧ 2 * get_edit_distance s m ≤ s.length
        ∧ (∀ c ∈ cands, 2 * get_edit_distance s c ≤ s.length →
            get_edit_distance s m ≤ get_edit_distance s c)
        ∧ (∀ c ∈ cands, get_edit_distance s c = get_edit_distance s m →
            get_common_prefix_len s c ≤ get_common_prefix_len s m) := by
  have hinv := fcm_inv_main s cands
  constructor
  · constructor
    · intro h
      unfold find_closest_match at h
      rcases hfold : cands.foldl (fcm_step s) none with _ | b
      · rw [hfold] at hinv
        exact hinv
      · rw [hfold] at h
        simp at h
    · intro h
      unfold find_closest_match
      rcases hfold : cands.foldl (fcm_step s) none with _ | b
      · rfl
      · rw [hfold] at hinv
        obtain ⟨hmem, hd, hp, hcut, _, _⟩ := hinv
        have hcontra := h b.1 hmem
        rw [hd] at hcut
        omega
  · intro m hm
    unfold find_closest_match at hm
    rcases hfold : cands.foldl (fcm_step s) none with _ | b
    · rw [hfold] at hm
      simp at hm
    · rw [hfold] at hm hinv
      simp only [Option.some.injEq] at hm
      obtain ⟨hmem, hd, hp, hcut, hmin, hpref⟩ := hinv
      subst hm
      refine ⟨hmem, by omega, ?_, ?_⟩
      · intro c hc hcle
        have := hmin c hc hcle
        omega
      · intro c hc hcd
        have := hpref c hc (by omega)
        omega

/-- C4 witness for the amended claim at a concrete input. -/
theorem C4_amended_witness :
    find_closest_match "ab" ["ab"] = some "ab" ∧
    ("ab" ∈ ["ab"] ∧ 2 * get_edit_distance "ab" "ab" ≤ "ab".length
      ∧ (∀ c ∈ ["ab"], 2 * get_edit_distance "ab" c ≤ "ab".length →
          get_edit_distance "ab" "ab" ≤ get_edit_distance "ab" c)
      ∧ (∀ c ∈ ["ab"], get_edit_distance "ab" c = get_edit_distance "ab" "ab" →
          get_common_prefix_len "ab" c ≤ get_common_prefix_len "ab" "ab")) :=
  ⟨by decide, (C4_amended "ab" ["ab"]).2 "ab" (by decide)⟩

/-- C5: the claim states `get_common_prefix_len` returns the length of
the longest common prefix, and in particular 2 for `"ab"`/`"abc"`.  The
Python loop `for i, (x, y) in enumerate(zip(s1, s2)): if x != y: break`
returns the last loop index rather than the count when the zip is
exhausted without a mismatch, so it returns 1 for `"ab"`/`"abc"` (and 1
for `"aa"`/`"aa"`), contradicting its own docstring "Return the longest
common prefix of two strings". -/
theorem C5_prefix_len_off_by_one :
    get_common_prefix_len "ab" "abc" = 1 ∧
    spec_common_prefix_len "ab".data "abc".data = 2 ∧
    get_common_prefix_len "aa" "aa" = 1 ∧
    get_common_prefix_len "ab" "xb" = 0 := by
  decide

/-- C6: `get_edit_distance(s1, s2)` equals the Levenshtein distance of
the two strings (the textbook recursion `lev`), and in particular
`get_edit_distance("kitten", "sitting") = 3`. -/
theorem C6_edit_distance_correct :
    (∀ s1 s2 : String, get_edit_distance s1 s2 = lev s1.data s2.data) ∧
    get_edit_distance "kitten" "sitting" = 3 :=
  ⟨get_edit_distance_eq_lev, by decide⟩

/-- C7: for a rule with `consistent_datatypes=true` over `#affected`,
after `validate_row` on rows carrying `"200"`, `"abc"`, `"300"` and one
`finish()`, exactly one inconsistent-datatype error is reported, for the
value `"abc"` at its row, and the message names `number` as the expected
type (the inferred datatypes are modelled from the spec:
`hxl.datatypes.typeof` is not under src/). -/
theorem C7_consistency_example :
    consAfterRows.finish =
      (false, [⟨"inconsistent datatype text (expected number)", some "abc", some 2,
        some affectedCol, none⟩]) := by
  decide

/-- C8 counterexample: the claim states `Schema.parse` raises on an
unrecognised datatype name in `#valid_datatype-consistent`; in fact
`parse_type` silently returns `None` for it and the rule is built with
no datatype constraint. -/
theorem C8_counterexample :
    (Schema.parse oracle0 [badDatatypeRow]).map
      (fun sch => sch.rules.map (fun r => r.data_type)) = .ok [none] := by
  decide

/-- C8 amended: `Schema.parse` raises (aborting schema construction) on
a malformed boolean field — any non-empty value outside `0/n/no/f/false`
and `y/yes/t/true`, case-insensitively — but an unrecognised datatype
name does NOT raise: `parse_type` normalises it and silently yields no
constraint (`None`), as the `DATATYPES` comment "others ignored" states. -/
theorem C8_amended :
    (∀ s : String, s ≠ "" →
      ¬ (["0", "n", "no", "f", "false"].contains (strLower s) = true) →
      ¬ (["y", "yes", "t", "true"].contains (strLower s) = true) →
      to_boolean (some s) = .error ("Unrecognised true/false value: " ++ s))
    ∧ (∀ t : String, t ≠ "" → ¬ (DATATYPES.contains (parse_type_norm t) = true) →
        parse_type (some t) = none)
    ∧ (Schema.parse oracle0 [badBoolRow]).map (fun sch => sch.rules.length) =
        .error "Unrecognised true/false value: maybe" := by
  refine ⟨?_, ?_, by decide⟩
  · intro s hne h1 h2
    simp only [to_boolean]
    rw [if_neg hne, if_neg h1, if_neg h2]
  · intro t hne hnot
    simp only [parse_type]
    rw [if_neg hne]
    rw [if_neg hnot]

/-- C8 witness for the amended claim at concrete inputs. -/
theorem C8_amended_witness :
    (to_boolean (some "maybe") = .error "Unrecognised true/false value: maybe")
    ∧ parse_type (some "integer") = none :=
  ⟨C8_amended.1 "maybe" (by decide) (by decide) (by decide),
   C8_amended.2.1 "integer" (by decide) (by decide)⟩

/-- C9 counterexample: the claim states every accumulation map gains at
most one entry per `validate_row` call.  A row with two columns matching
the pattern and distinct non-empty values makes the uniqueness set gain
two entries (one per value, via `_test_unique`) and the consistency map
gain two entries (the consistency loop has no break), in a single call. -/
theorem C9_counterexample :
    (twoColRule.validate_row twoColRow).1.unique_value_map.length = 2 ∧
    twoColRule.unique_value_map.length = 0 ∧
    consTotal (twoColRule.validate_row twoColRow).1.consistency_map = 2 ∧
    consTotal twoColRule.consistency_map = 0 := by
  decide

/-- C9 amended: per `validate_row` call, the unique-key set gains at most
one entry and the correlation map at most one location (its loop breaks
after the first match); the uniqueness set and the consistency map
instead gain one entry per matching non-empty value, which can exceed
one when several columns match. -/
theorem C9_amended (r : SchemaRule) (row : Row) :
    (r.validate_row row).1.unique_key_map.length ≤ r.unique_key_map.length + 1 ∧
    corrTotal (r.validate_row row).1.correlation_map ≤ corrTotal r.correlation_map + 1 :=
  ⟨validate_row_unique_key_gain r row, validate_row_correlation_gain r row⟩

/-- C10: every type-mismatch error and every range-violation error
carries `suggested_value = raw value` (the raw value is passed as the
fifth positional argument of `_report_error`, which is
`suggested_value`), and these errors only arise inside `validate` for
non-empty raw values (empty values produce no error at all), so the
suggestion is never empty; only enumeration failures compute a genuine
closest-match suggestion (`enum_suggestion`, built from
`find_closest_match` over the enum keys). -/
theorem C10_suggested_values (r : SchemaRule) (value raw : String) (rn : Option Nat)
    (col : Option Column) :
    (∀ e ∈ (r.test_type value rn col raw).2, e.suggested_value = some raw)
    ∧ (∀ e ∈ (r.test_range value rn col raw).2, e.suggested_value = some raw)
    ∧ (∀ e ∈ (r.test_enumeration value rn col raw).2,
        e.suggested_value = r.enum_suggestion value)
    ∧ (is_empty raw = true → (r.validate raw rn col).2.2 = []) := by
  refine ⟨?_, ?_, ?_, ?_⟩
  · simp only [SchemaRule.test_type]
    repeat' split
    all_goals simp
  · simp only [SchemaRule.test_range]
    repeat' split
    all_goals simp_all
  · simp only [SchemaRule.test_enumeration]
    repeat' split
    all_goals simp
  · intro h
    simp only [SchemaRule.validate, h]
    rfl

/-- C10 witness at a concrete input: a number-typed rule over the value
`"abc"` reports one type error whose suggested value is the raw value. -/
theorem C10_witness :
    (numRule.test_type "abc" (some 1) (some xCol) "abc").2 =
      [⟨"Expected a number", some "abc", some 1, some xCol, some "abc"⟩] ∧
    (⟨"Expected a number", some "abc", some 1, some xCol, some "abc"⟩ :
        ValidationError).suggested_value = some "abc" :=
  ⟨by decide, (C10_suggested_values numRule "abc" "abc" (some 1) (some xCol)).1 _ (by decide)⟩

end HXLV
